import Mathlib

/-!
A verification development for the content-extraction and section-scoring
pipeline of the accessible-snapshot repository.

The TypeScript sources are shallowly embedded:

* JavaScript numbers are modelled as exact rationals (`ℚ`); all arithmetic
  performed by the pipeline stays within small denominators (tenths and
  halvings), where double-precision evaluation agrees with exact evaluation.
* JavaScript strings are modelled as Lean `String`s; the handful of regular
  expressions used by the code are translated into explicit character-list
  functions, each documented with the regex it implements.
* The host DOM is modelled as an inductive tree of elements and text nodes.
  Host-computed data (computed style, layout boxes, reflected properties,
  URL resolution) appear as explicit fields of the model, since the source
  treats them as read-only inputs from the host environment.

Definitions mirror the functions of `src/extractor.ts` and the grouping
module (`groupContentByHeadings` … `groupAndScoreContent`), keeping the
source names.  Loops that mutate local state are rendered as folds or as
accumulator-passing recursions; the fixed recursion-depth guard of the
source (`depth > MAX_DEPTH`) is rendered as structural fuel counting the
remaining allowed depth.
-/

namespace ASnap

/-! ### JavaScript string primitives -/

/-- Character class of the JavaScript regex `\s` (also the set of characters
removed by `String.prototype.trim`): ASCII whitespace, NBSP, the Unicode
space separators, the line separators and the BOM. -/
def jsSpaceChar (c : Char) : Bool :=
  let n := c.toNat
  (9 ≤ n && n ≤ 13) || n = 32 || n = 160 || n = 0x1680 ||
  (0x2000 ≤ n && n ≤ 0x200A) || n = 0x2028 || n = 0x2029 ||
  n = 0x202F || n = 0x205F || n = 0x3000 || n = 0xFEFF

/-- Model of `String.prototype.trim`. -/
def jsTrimList (cs : List Char) : List Char :=
  ((cs.dropWhile jsSpaceChar).reverse.dropWhile jsSpaceChar).reverse

/-- Model of `String.prototype.trim` on `String`. -/
def jsTrim (s : String) : String := ⟨jsTrimList s.toList⟩

/-- Number of maximal nonempty runs of whitespace in a character list;
`prevWs` records whether the previous character was whitespace. -/
def wsRunCountAux : List Char → Bool → Nat
  | [], _ => 0
  | c :: r, prevWs =>
    (if jsSpaceChar c && !prevWs then 1 else 0) + wsRunCountAux r (jsSpaceChar c)

/-- Model of `s.split(/\s+/).length`.  JavaScript `split` with a regex
separator yields one piece more than the number of separator runs; leading
and trailing runs still contribute empty pieces, and the empty string yields
a single empty piece. -/
def jsSplitWsLength (s : String) : Nat := 1 + wsRunCountAux s.toList false

/-- Model of `s.replace(/\s+/g, " ")`: each maximal whitespace run becomes a
single space. -/
def collapseWsAux : List Char → Bool → List Char
  | [], _ => []
  | c :: r, prevWs =>
    if jsSpaceChar c then
      (if prevWs then collapseWsAux r true else ' ' :: collapseWsAux r true)
    else c :: collapseWsAux r false

/-- Model of `s.replace(/\s+/g, " ")` on `String`. -/
def collapseWs (s : String) : String := ⟨collapseWsAux s.toList false⟩

/-- ASCII lower-casing (`String.prototype.toLowerCase`; every string it is
applied to in the source is compared against ASCII literals). -/
def asciiLower (s : String) : String := String.mk (s.toList.map Char.toLower)

/-- ASCII upper-casing (`String.prototype.toUpperCase`). -/
def asciiUpper (s : String) : String := String.mk (s.toList.map Char.toUpper)

/-- Character class of the JavaScript regex `\w`. -/
def jsWordChar (c : Char) : Bool :=
  ('a' ≤ c && c ≤ 'z') || ('A' ≤ c && c ≤ 'Z') || ('0' ≤ c && c ≤ '9') || c = '_'

/-- Character class of the JavaScript regex `\d`. -/
def jsDigit (c : Char) : Bool := '0' ≤ c && c ≤ '9'

/-- Literal prefix match on character lists. -/
def leadMatches : List Char → List Char → Bool
  | [], _ => true
  | _, [] => false
  | p :: ps, c :: cs => p = c && leadMatches ps cs

/-- Substring occurrence test (`String.prototype.includes`). -/
def containsSub (needle : List Char) : List Char → Bool
  | [] => leadMatches needle []
  | c :: cs => leadMatches needle (c :: cs) || containsSub needle cs

/-- Whether a `\b` word boundary holds between an optional previous character
and an optional next character (out-of-string counts as non-word). -/
def wordBoundaryBetween (prev next : Option Char) : Bool :=
  let w : Option Char → Bool := fun o => match o with
    | some c => jsWordChar c
    | none => false
  w prev != w next

/-- Whether the keyword `kw` occurs somewhere in the list with a `\b`
boundary on each side, as in the regex `\b(kw)\b`; `prev` is the character
immediately before the current position. -/
def kwBoundaryScan (kw : List Char) : Option Char → List Char → Bool
  | _, [] => false
  | prev, c :: cs =>
    (leadMatches kw (c :: cs) &&
      wordBoundaryBetween prev (some c) &&
      wordBoundaryBetween ((kw.getLast?).orElse (fun _ => some c))
        ((List.drop kw.length (c :: cs)).head?)) ||
    kwBoundaryScan kw (some c) cs

/-- Whether any of the (lower-case) keywords matches the string under
`\b(k1|k2|…)\b` with the case-insensitive flag. -/
def hasBoundedKeyword (kws : List String) (s : String) : Bool :=
  let ls := (asciiLower s).toList
  kws.any fun kw => kwBoundaryScan kw.toList none ls

/-! ### The lexical noise classifiers of `src/extractor.ts` -/

/-- Keyword alternatives of `NOISE_PATTERNS`
(`/\b(cookie|consent|…|sku)\b/i`). -/
def NOISE_PATTERN_WORDS : List String :=
  ["cookie", "consent", "gdpr", "ccpa", "banner", "modal", "popup", "overlay",
   "dialog", "social", "share", "sharing", "ad-", "ads-", "advert", "sponsor",
   "sidebar", "related", "recommended", "newsletter", "subscribe", "widget",
   "toast", "alert", "toolbar", "tooltip", "promo", "callout", "announcement",
   "notification", "price", "cart", "basket", "checkout", "quantity",
   "add-to", "wishlist", "product-card", "shelf", "buy-now", "rating",
   "review-count", "stock", "sku"]

/-- Test of `NOISE_PATTERNS` against a string. -/
def noisePatternTest (s : String) : Bool := hasBoundedKeyword NOISE_PATTERN_WORDS s

/-- An apostrophe character, used in string literals below. -/
def apos : Char := Char.ofNat 39

/-- The `NOISE_CHROME_STRINGS` set (all entries are lower-case in the
source). -/
def NOISE_CHROME_STRINGS : List String :=
  ["add", "ea", "kg", "add to list", "add to cart", "see all", "view all",
   "shop now", "log in", "register", "book slot", "buy now", "remove",
   "save", "qty", "select unit type", "log in or register",
   "grab them while they last", "see more", "book your slot", "learn more",
   "read more", "find out more", "view more", "show more", "load more"]

/-- Model of `PRICE_PATTERN`, the regex `^\$?\d+[\.,]?\d*(%|\/\d*\w+)?$`. -/
def matchPricePat (cs : List Char) : Bool :=
  let cs1 := match cs with
    | '$' :: r => r
    | _ => cs
  let ds := cs1.takeWhile jsDigit
  let r1 := cs1.dropWhile jsDigit
  if ds.isEmpty then false
  else
    let r2 := match r1 with
      | c :: r => if c = '.' || c = ',' then r else r1
      | [] => r1
    let r3 := r2.dropWhile jsDigit
    match r3 with
    | [] => true
    | ['%'] => true
    | '/' :: rest => !rest.isEmpty && rest.all jsWordChar
    | _ => false

/-- Model of `UNIT_PRICE_PATTERN`, the regex `^\$\d+\.\d{2}\/\w+$`. -/
def matchUnitPricePat (cs : List Char) : Bool :=
  match cs with
  | '$' :: r =>
    let ds := r.takeWhile jsDigit
    let r1 := r.dropWhile jsDigit
    if ds.isEmpty then false
    else
      match r1 with
      | '.' :: d1 :: d2 :: '/' :: w =>
        jsDigit d1 && jsDigit d2 && !w.isEmpty && w.all jsWordChar
      | _ => false
  | _ => false

/-- Unit alternatives of `MEASUREMENT_PATTERN`. -/
def MEASUREMENT_UNITS : List String :=
  ["g", "kg", "mg", "ml", "l", "pk", "sheets", "mm", "cm", "m", "oz", "lb"]

/-- Model of `MEASUREMENT_PATTERN`, the regex
`^\d+(\.\d+)?\s*(g|kg|mg|ml|l|pk|sheets|mm|cm|m|oz|lb)$/i`. -/
def matchMeasurementPat (cs : List Char) : Bool :=
  let ds := cs.takeWhile jsDigit
  let r1 := cs.dropWhile jsDigit
  if ds.isEmpty then false
  else
    match r1 with
    | '.' :: rr =>
      let ds2 := rr.takeWhile jsDigit
      if ds2.isEmpty then false
      else
        let r2 := (rr.dropWhile jsDigit).dropWhile jsSpaceChar
        MEASUREMENT_UNITS.contains (asciiLower (String.mk r2))
    | _ =>
      let r2 := r1.dropWhile jsSpaceChar
      MEASUREMENT_UNITS.contains (asciiLower (String.mk r2))

/-- Match of the tail fragment `\d*\s*\w+$` (or `\d+\s*\w+$` when
`dRequired` is set).  Because digits are themselves word characters, the
final `\w+` may absorb trailing digits of the `\d` group, so plain greedy
take-while parsing does not suffice; the case split below characterises the
backtracking regex exactly. -/
def matchTailDigitsSpacesWord (r : List Char) (dRequired : Bool) : Bool :=
  let d := r.takeWhile jsDigit
  let r1 := r.dropWhile jsDigit
  if dRequired && d.isEmpty then false
  else
    let s := r1.takeWhile jsSpaceChar
    let w := r1.dropWhile jsSpaceChar
    if !s.isEmpty then !w.isEmpty && w.all jsWordChar
    else if !w.isEmpty then w.all jsWordChar
    else if dRequired then d.length ≥ 2
    else !d.isEmpty

/-- Model of `MULTI_UNIT_PATTERN`, the regex `^\d+\s*x\s*\d+\s*\w+$/i`. -/
def matchMultiUnitPat (cs : List Char) : Bool :=
  let d1 := cs.takeWhile jsDigit
  let r1 := cs.dropWhile jsDigit
  if d1.isEmpty then false
  else
    match r1.dropWhile jsSpaceChar with
    | c :: rest =>
      (c = 'x' || c = 'X') &&
        matchTailDigitsSpacesWord (rest.dropWhile jsSpaceChar) true
    | [] => false

/-- Model of `LIMIT_PATTERN`, the regex `^Limit \d+/i` (prefix match, the
end is unanchored). -/
def matchLimitPat (cs : List Char) : Bool :=
  let ls := (asciiLower (String.mk cs)).toList
  leadMatches "limit ".toList ls &&
    (match (ls.drop 6).head? with
     | some c => jsDigit c
     | none => false)

/-- Model of `REVIEW_PATTERN`, the regex
`^\d+(\.\d+)?\s+out of \d+\s+stars/i` (prefix match). -/
def matchReviewPat (cs : List Char) : Bool :=
  let ls := (asciiLower (String.mk cs)).toList
  let d1 := ls.takeWhile jsDigit
  let r1 := ls.dropWhile jsDigit
  if d1.isEmpty then false
  else
    let r2 := match r1 with
      | '.' :: rr => if (rr.takeWhile jsDigit).isEmpty then none
                     else some (rr.dropWhile jsDigit)
      | _ => some r1
    match r2 with
    | none => false
    | some r2 =>
      let sp := r2.takeWhile jsSpaceChar
      let r3 := r2.dropWhile jsSpaceChar
      if sp.isEmpty then false
      else if !leadMatches "out of ".toList r3 then false
      else
        let r4 := r3.drop 7
        let d2 := r4.takeWhile jsDigit
        let r5 := r4.dropWhile jsDigit
        if d2.isEmpty then false
        else
          let sp2 := r5.takeWhile jsSpaceChar
          let r6 := r5.dropWhile jsSpaceChar
          if sp2.isEmpty then false
          else leadMatches "stars".toList r6

/-- Model of `PAGINATION_PATTERN`, the regex `^\d+\s*\/\s*\d+$`. -/
def matchPaginationPat (cs : List Char) : Bool :=
  let d1 := cs.takeWhile jsDigit
  let r1 := cs.dropWhile jsDigit
  if d1.isEmpty then false
  else
    match r1.dropWhile jsSpaceChar with
    | '/' :: rest =>
      let r2 := rest.dropWhile jsSpaceChar
      let d2 := r2.takeWhile jsDigit
      !d2.isEmpty && (r2.dropWhile jsDigit).isEmpty
    | _ => false

/-- Model of `PRICE_PER_UNIT_PATTERN`, the regex
`^\$\d+\.\d+\s*\/\s*\d*\s*\w+$`. -/
def matchPricePerUnitPat (cs : List Char) : Bool :=
  match cs with
  | '$' :: r =>
    let d1 := r.takeWhile jsDigit
    let r1 := r.dropWhile jsDigit
    if d1.isEmpty then false
    else
      match r1 with
      | '.' :: rr =>
        let d2 := rr.takeWhile jsDigit
        if d2.isEmpty then false
        else
          match (rr.dropWhile jsDigit).dropWhile jsSpaceChar with
          | '/' :: rest =>
            matchTailDigitsSpacesWord (rest.dropWhile jsSpaceChar) false
          | _ => false
      | _ => false
  | _ => false

/-- Model of `isNoiseText`, applying the same checks in the same order as
the source.  The length comparison models `t.length <= 2`: JavaScript
counts UTF-16 code units, which coincides with the character count on the
basic multilingual plane. -/
def isNoiseText (text : String) : Bool :=
  let t := jsTrim text
  if t = "" then true
  else if matchPricePat t.toList then true
  else if matchUnitPricePat t.toList then true
  else if t.length ≤ 2 then true
  else if NOISE_CHROME_STRINGS.contains (asciiLower t) then true
  else if matchMeasurementPat t.toList then true
  else if matchMultiUnitPat t.toList then true
  else if matchLimitPat t.toList then true
  else if matchReviewPat t.toList then true
  else if matchPaginationPat t.toList then true
  else if matchPricePerUnitPat t.toList then true
  else false

/-- Verb alternatives of `PROMOTIONAL_PATTERN`
(`/^(grab|shop|…|hurry)\b/i`), lower-cased. -/
def PROMOTIONAL_VERBS : List String :=
  ["grab", "shop", "buy", "order", "get", "book", "check out", "discover",
   "explore", "browse", "find", "view", "see", "start", "try", "save",
   "don" ++ String.mk [apos] ++ "t miss", "hurry"]

/-- Test of `PROMOTIONAL_PATTERN`: one of the verbs as a prefix, followed by
a `\b` boundary, case-insensitively. -/
def promotionalLeadTest (t : String) : Bool :=
  let lt := (asciiLower t).toList
  PROMOTIONAL_VERBS.any fun v =>
    let vl := v.toList
    leadMatches vl lt &&
      wordBoundaryBetween vl.getLast? ((lt.drop vl.length).head?)

/-- The `MARKETING_KEYWORDS` list. -/
def MARKETING_KEYWORDS : List String :=
  ["shop online", "your local store", "personal shoppers",
   "at your fingertips", "your door", "suits you", "start shopping",
   "online grocery", "fingertips", "straight to your", "pick your items",
   "download the app"]

/-- Model of `CTA_ENDING_PATTERN`, the regex `\b(today|now|today!|now!)\.?!?$/i`:
the string ends with one of the alternatives, optionally followed by a
period and optionally an exclamation mark, with a word boundary before the
alternative. -/
def ctaEndingTest (t : String) : Bool :=
  let lt := (asciiLower t).toList
  let combos :=
    (["today", "now", "today!", "now!"].flatMap fun w =>
      ["", "."].flatMap fun d =>
        ["", "!"].map fun e => w ++ d ++ e)
  combos.any fun suffixStr =>
    let sl := suffixStr.toList
    lt.length ≥ sl.length &&
      decide (lt.drop (lt.length - sl.length) = sl) &&
      wordBoundaryBetween ((lt.take (lt.length - sl.length)).getLast?) sl.head?

/-- Model of `isPromotionalParagraph`, with checks in source order. -/
def isPromotionalParagraph (text : String) : Bool :=
  let t := jsTrim text
  let tLower := asciiLower t
  let wordCount := jsSplitWsLength t
  if wordCount ≤ 10 && promotionalLeadTest t then true
  else if wordCount = 1 &&
      (match t.toList.head? with
       | some c => 'A' ≤ c && c ≤ 'Z'
       | none => false) then true
  else if wordCount ≤ 30 &&
      (MARKETING_KEYWORDS.countP fun kw =>
        containsSub kw.toList tLower.toList) ≥ 2 then true
  else if wordCount ≤ 30 && ctaEndingTest t then true
  else false

/-! ### Data model (`src/types.ts`) -/

/-- The `sourceContext` values. -/
inductive SourceCtx where
  | main
  | article
  | body
deriving DecidableEq, Repr

/-- The `ContentBlockType` union. -/
inductive BlockType where
  | heading
  | paragraph
  | list
  | image
  | blockquote
  | preformatted
  | table
  | definitionList
deriving DecidableEq, Repr

/-- The `ContentBlock` interface; optional fields are `Option`s. -/
structure ContentBlock where
  type : BlockType
  text : String
  level : Option Nat := none
  items : Option (List String) := none
  alt : Option String := none
  src : Option String := none
  rows : Option (List (List String)) := none
  headers : Option (List String) := none
  definitions : Option (List (String × String)) := none
  sourceContext : Option SourceCtx := none
deriving DecidableEq, Repr

/-- The heading record stored on a `ContentGroup`. -/
structure GroupHeading where
  text : String
  level : Nat
deriving DecidableEq, Repr

/-- The `ContentGroup` interface; scores are exact rationals. -/
structure ContentGroup where
  heading : Option GroupHeading := none
  blocks : List ContentBlock
  score : ℚ
  collapsed : Bool
deriving DecidableEq, Repr

/-! ### The section grouper (`groupContentByHeadings` and friends) -/

/-- The conditional push `if (current.blocks.length > 0 || current.heading)
groups.push(current)` of `groupContentByHeadings`. -/
def pushIfLive (groups : List ContentGroup) (current : ContentGroup) :
    List ContentGroup :=
  if current.blocks.length > 0 || current.heading.isSome then
    groups ++ [current]
  else groups

/-- The main loop of `groupContentByHeadings`, with the mutable `current`
and `groups` variables passed explicitly. -/
def partitionLoop :
    List ContentBlock → ContentGroup → List ContentGroup → List ContentGroup
  | [], current, groups => pushIfLive groups current
  | block :: rest, current, groups =>
    if block.type = .heading then
      partitionLoop rest
        ⟨some ⟨block.text, block.level.getD 2⟩, [], 0, false⟩
        (pushIfLive groups current)
    else
      partitionLoop rest { current with blocks := current.blocks ++ [block] }
        groups

/-- Model of `isProductLike`: a paragraph of fewer than ten words whose
trimmed text does not end in `.`, `!` or `?`. -/
def isProductLike (block : ContentBlock) : Bool :=
  if block.type ≠ .paragraph then false
  else
    let words := jsSplitWsLength block.text
    if words ≥ 10 then false
    else !(match (jsTrim block.text).toList.getLast? with
           | some c => c = '.' || c = '!' || c = '?'
           | none => false)

/-- The split loop of `splitLargeHeadinglessGroup`, carrying `current`,
`shortRun` and `result`. -/
def splitLoop :
    List ContentBlock → List ContentBlock → Nat → List ContentGroup →
      List ContentGroup
  | [], current, _, result =>
    if current.length > 0 then result ++ [⟨none, current, 0, false⟩]
    else result
  | block :: rest, current, shortRun, result =>
    let shortRun := if isProductLike block then shortRun + 1 else 0
    let current := current ++ [block]
    if shortRun ≥ 3 then
      splitLoop rest [] 0 (result ++ [⟨none, current, 0, true⟩])
    else
      splitLoop rest current shortRun result

/-- Model of `splitLargeHeadinglessGroup`.  The product-like share is exact
rational division; for an empty block list both the model (division by zero
yields `0`) and the source (`NaN > 0.6` is false) take the split branch. -/
def splitLargeHeadinglessGroup (group : ContentGroup) : List ContentGroup :=
  let blocks := group.blocks
  let productLikeCount := (blocks.filter isProductLike).length
  let productLikeShare : ℚ := (productLikeCount : ℚ) / (blocks.length : ℚ)
  if productLikeShare > (0.6 : ℚ) then [{ group with collapsed := true }]
  else splitLoop blocks [] 0 []

/-- Model of `groupContentByHeadings`: partition at headings, then apply the
secondary splitter to a single large headingless group. -/
def groupContentByHeadings (blocks : List ContentBlock) : List ContentGroup :=
  let groups := partitionLoop blocks ⟨none, [], 0, false⟩ []
  match groups with
  | [g] =>
    if g.heading.isNone && g.blocks.length > 10 then
      splitLargeHeadinglessGroup g
    else [g]
  | _ => groups

/-- Number of blocks of a list whose (defaulted) `sourceContext` is `c`. -/
def ctxCount (blocks : List ContentBlock) (c : SourceCtx) : Nat :=
  (blocks.filter fun b => b.sourceContext.getD .body = c).length

/-- Model of `getDominantContext`. -/
def getDominantContext (blocks : List ContentBlock) : SourceCtx :=
  let cMain := ctxCount blocks .main
  let cArticle := ctxCount blocks .article
  let cBody := ctxCount blocks .body
  if cMain ≥ cArticle && cMain ≥ cBody then .main
  else if cArticle ≥ cBody then .article
  else .body

/-- The per-block score computed inside the loop of `scoreContentGroup`:
the repetition penalty overrides the per-type switch (a `heading` block
falls through the switch and keeps score `0`). -/
def blockScoreOf (repetitionSet : List String) (block : ContentBlock) : ℚ :=
  if repetitionSet.contains block.text then -1
  else
    match block.type with
    | .paragraph =>
      let wordCount := jsSplitWsLength block.text
      if wordCount ≥ 5 then min ((wordCount : ℚ) / 10) 5 else 0
    | .list => ((block.items.getD []).length : ℚ) * (0.5 : ℚ)
    | .image => 3
    | .blockquote => 4
    | .preformatted => 4
    | .table => min ((3 : ℚ) + ((block.rows.getD []).length : ℚ) * (0.3 : ℚ)) 10
    | .definitionList =>
      min (((block.definitions.getD []).length : ℚ) * (1.0 : ℚ)) 8
    | .heading => 0

/-- Model of `scoreContentGroup`: sum of block scores, dominant-context
bonus, heading-quality bonus, then the noise-share halving. -/
def scoreContentGroup (group : ContentGroup) (repetitionSet : List String) : ℚ :=
  let base := group.blocks.foldl (fun s b => s + blockScoreOf repetitionSet b) 0
  let zeroOrNegativeCount :=
    (group.blocks.filter fun b => blockScoreOf repetitionSet b ≤ 0).length
  let score :=
    match getDominantContext group.blocks with
    | .main => base + 2
    | .article => base + (1.5 : ℚ)
    | .body => base
  let score :=
    match group.heading with
    | some h =>
      let headingWords := jsSplitWsLength h.text
      if 3 ≤ headingWords ∧ headingWords ≤ 10 then score + 2 else score
    | none => score
  if group.blocks.length > 0 ∧
      ((zeroOrNegativeCount : ℚ) / (group.blocks.length : ℚ) > (0.6 : ℚ)) then
    score * (0.5 : ℚ)
  else score

/-- One step of the frequency `Map` of `buildRepetitionSet`
(`freq.set(text, (freq.get(text) ?? 0) + 1)`), preserving insertion order
as a JavaScript `Map` does. -/
def bumpFreq (freq : List (String × Nat)) (t : String) : List (String × Nat) :=
  if freq.any fun p => p.1 = t then
    freq.map fun p => if p.1 = t then (p.1, p.2 + 1) else p
  else freq ++ [(t, 1)]

/-- All block texts over all groups, in iteration order. -/
def allGroupBlockTexts (groups : List ContentGroup) : List String :=
  groups.flatMap fun g => g.blocks.map (·.text)

/-- Model of `buildRepetitionSet`: texts whose frequency across all groups
is at least three. -/
def buildRepetitionSet (groups : List ContentGroup) : List String :=
  let freq := (allGroupBlockTexts groups).foldl bumpFreq []
  (freq.filter fun p => p.2 ≥ 3).map (·.1)

/-- Model of `markCollapsedGroups`. -/
def markCollapsedGroups (groups : List ContentGroup) (threshold : ℚ) :
    List ContentGroup :=
  groups.map fun group =>
    { group with collapsed := decide (group.score < threshold) }

/-- Model of `groupAndScoreContent`: group, build the repetition set, score
every group, compute the adaptive threshold `max(5, median)` over the
sorted scores, and mark groups collapsed.  `Array.prototype.sort` with a
numeric comparator produces the unique ascending arrangement of the score
values, modelled by insertion sort. -/
def groupAndScoreContent (blocks : List ContentBlock) : List ContentGroup :=
  let groups := groupContentByHeadings blocks
  let repetitionSet := buildRepetitionSet groups
  let scored :=
    groups.map fun g => { g with score := scoreContentGroup g repetitionSet }
  let scores := List.insertionSort (· ≤ ·) (scored.map (·.score))
  let median : ℚ :=
    if scores.length > 0 then
      if scores.length % 2 = 1 then scores.getD (scores.length / 2) 0
      else
        (scores.getD (scores.length / 2 - 1) 0 +
          scores.getD (scores.length / 2) 0) / 2
    else 0
  let threshold := max 5 median
  markCollapsedGroups scored threshold

/-! ### The host document model

A node is either a text node or an element.  Host-computed per-element data
appears as explicit fields: the computed style strings (`display`,
`visibility`, `overflow`), a flag `zeroOffsetBox` modelling
`el instanceof HTMLElement && el.offsetWidth === 0 && el.offsetHeight === 0`,
the open shadow root (`shadow`), and for same-origin iframes the body of
`contentDocument` (`frameBody`, `none` models a cross-origin frame whose
inspection throws and is skipped).  Tag names are stored lower-case (the
source lower-cases `tagName` before use). -/
inductive Node where
  | textNode (s : String)
  | element (tag : String) (attrs : List (String × String))
      (styleDisplay styleVisibility styleOverflow : String)
      (zeroOffsetBox : Bool)
      (childNodes : List Node) (shadow : Option (List Node))
      (frameBody : Option Node)
deriving Repr

/-- Whether a node is an element. -/
def Node.isElement : Node → Bool
  | .textNode _ => false
  | .element .. => true

/-- Lower-cased tag name (empty for text nodes). -/
def Node.tagName : Node → String
  | .textNode _ => ""
  | .element t .. => t

/-- Model of `getAttribute`: `none` models a missing attribute (`null`). -/
def Node.getAttribute : Node → String → Option String
  | .textNode _, _ => none
  | .element _ attrs .., name => (attrs.find? fun p => p.1 = name).map (·.2)

/-- Model of `hasAttribute`. -/
def Node.hasAttribute (n : Node) (name : String) : Bool :=
  (n.getAttribute name).isSome

/-- The computed `display` value. -/
def Node.styleDisplayOf : Node → String
  | .textNode _ => ""
  | .element _ _ d .. => d

/-- The computed `visibility` value. -/
def Node.styleVisibilityOf : Node → String
  | .textNode _ => ""
  | .element _ _ _ v .. => v

/-- The computed `overflow` value. -/
def Node.styleOverflowOf : Node → String
  | .textNode _ => ""
  | .element _ _ _ _ o .. => o

/-- The zero-offset-box flag. -/
def Node.zeroBox : Node → Bool
  | .textNode _ => false
  | .element _ _ _ _ _ z .. => z

/-- All child nodes. -/
def Node.childNodesOf : Node → List Node
  | .textNode _ => []
  | .element _ _ _ _ _ _ cs _ _ => cs

/-- The open shadow root's child nodes, when present. -/
def Node.shadowChildren : Node → Option (List Node)
  | .textNode _ => none
  | .element _ _ _ _ _ _ _ sh _ => sh

/-- The `contentDocument.body` of a same-origin iframe, when accessible. -/
def Node.frameBodyOf : Node → Option Node
  | .textNode _ => none
  | .element _ _ _ _ _ _ _ _ fb => fb

/-- Element-only filtering of a node list. -/
def elementsOf (ns : List Node) : List Node := ns.filter Node.isElement

/-- Model of the DOM `children` collection (element children only). -/
def Node.children (n : Node) : List Node := elementsOf n.childNodesOf

/-- Model of `isHidden`: explicit hidden/inert markers, `aria-hidden`,
computed `display:none`/`visibility:hidden`, or a zero-dimension box with
clipped overflow. -/
def isHidden (el : Node) : Bool :=
  el.hasAttribute "hidden" ||
  el.getAttribute "aria-hidden" == some "true" ||
  el.hasAttribute "inert" ||
  el.styleDisplayOf == "none" || el.styleVisibilityOf == "hidden" ||
  (el.styleOverflowOf == "hidden" && el.zeroBox)

/-- Model of `isVisible`. -/
def isVisible (el : Node) : Bool := !isHidden el

/-- Model of `isPresentational`. -/
def isPresentational (el : Node) : Bool :=
  el.getAttribute "role" == some "presentation" ||
  el.getAttribute "role" == some "none"

/-- Model of `isNoisyElement`: the id, class and selected `data-*`
attributes are tested against `NOISE_PATTERNS`.  `el.id` and `el.className`
reflect as the empty string when the attribute is missing. -/
def isNoisyElement (el : Node) : Bool :=
  let id := (el.getAttribute "id").getD ""
  let classStr := (el.getAttribute "class").getD ""
  (id ≠ "" && noisePatternTest id) ||
  (classStr ≠ "" && noisePatternTest classStr) ||
  (match el.getAttribute "data-component" with
   | some v => v ≠ "" && noisePatternTest v
   | none => false) ||
  (match el.getAttribute "data-testid" with
   | some v => v ≠ "" && noisePatternTest v
   | none => false) ||
  (match el.getAttribute "data-type" with
   | some v => v ≠ "" && noisePatternTest v
   | none => false)

/-- The `BLOCK_TAGS` set used by `extractText`. -/
def BLOCK_TAGS : List String :=
  ["address", "article", "aside", "blockquote", "details", "dialog", "dd",
   "div", "dl", "dt", "fieldset", "figcaption", "figure", "footer", "form",
   "h1", "h2", "h3", "h4", "h5", "h6", "header", "hgroup", "hr", "li",
   "main", "nav", "ol", "p", "pre", "section", "table", "ul", "tr", "td",
   "th"]

/-- The `SKIP_TAGS` set of `extractContentBlocks`. -/
def SKIP_TAGS : List String :=
  ["nav", "form", "script", "style", "link", "meta", "noscript", "svg",
   "dialog", "template", "canvas", "video", "audio", "aside", "header",
   "footer", "button"]

/-- The `LIVE_REGION_ROLES` set. -/
def LIVE_REGION_ROLES : List String := ["alert", "status", "log", "marquee", "timer"]

/-- The recursion ceiling `MAX_DEPTH`. -/
def MAX_DEPTH : Nat := 50

/-- The walker of `extractText`, with the `parts` array passed explicitly
and the remaining depth budget as structural fuel (fuel `0` models
`depth > MAX_DEPTH`). -/
def extractTextWalk : Nat → Node → List String → List String
  | 0, _, parts => parts
  | _ + 1, .textNode s, parts =>
    if jsTrim s ≠ "" then parts ++ [s] else parts
  | fuel + 1, el@(.element ..), parts =>
    if isHidden el then parts
    else
      let tag := el.tagName
      if tag = "style" || tag = "script" then parts
      else
        let isBlock := BLOCK_TAGS.contains tag || tag = "br"
        let parts1 := if isBlock && parts.length > 0 then parts ++ [" "] else parts
        let parts2 :=
          match el.shadowChildren with
          | some sh => sh.foldl (fun ps c => extractTextWalk fuel c ps) parts1
          | none => el.childNodesOf.foldl (fun ps c => extractTextWalk fuel c ps) parts1
        if isBlock && parts2.length > 0 then parts2 ++ [" "] else parts2

/-- Model of `extractText`: walk, join, collapse whitespace, trim. -/
def extractText (el : Node) : String :=
  jsTrim (collapseWs (String.join (extractTextWalk (MAX_DEPTH + 1) el [])))

mutual

/-- The raw text content of a subtree (DOM `textContent`): concatenation of
all text nodes, without visibility filtering and without shadow trees. -/
def textContentParts : Node → List String
  | .textNode s => [s]
  | .element _ _ _ _ _ _ cs _ _ => textContentPartsList cs

/-- List version of `textContentParts`. -/
def textContentPartsList : List Node → List String
  | [] => []
  | n :: rest => textContentParts n ++ textContentPartsList rest

end

/-- Model of `el.textContent`. -/
def textContentOf (n : Node) : String := String.join (textContentParts n)

mutual

/-- An element together with its light-tree element descendants, in
document (preorder) order — the scope of `querySelectorAll` on a root. -/
def subtreeElems : Node → List Node
  | .textNode _ => []
  | el@(.element _ _ _ _ _ _ cs _ _) => el :: subtreeElemsList cs

/-- List version of `subtreeElems`. -/
def subtreeElemsList : List Node → List Node
  | [] => []
  | n :: rest => subtreeElems n ++ subtreeElemsList rest

end

/-- The light-tree element descendants of an element (excluding itself):
the scope of `el.querySelectorAll`. -/
def descendantElems (n : Node) : List Node := subtreeElemsList n.childNodesOf

mutual

/-- The shadow pass of `deepQueryAll`: for every light-tree element (in
document order) holding a shadow root, the full deep query of that shadow
root. -/
def shadowMatches (sel : Node → Bool) : Node → List Node
  | .textNode _ => []
  | .element _ _ _ _ _ _ cs sh _ =>
    (match sh with
     | some shk => (subtreeElemsList shk).filter sel ++ shadowMatchesList sel shk
     | none => []) ++ shadowMatchesList sel cs

/-- List version of `shadowMatches`. -/
def shadowMatchesList (sel : Node → Bool) : List Node → List Node
  | [] => []
  | n :: rest => shadowMatches sel n ++ shadowMatchesList sel rest

end

/-- Model of `deepQueryAll` over a query scope (the selector is modelled as
a node predicate): all light-tree matches first, then the recursive
shadow-root matches, exactly in the source's order. -/
def deepQueryAll (scope : List Node) (sel : Node → Bool) : List Node :=
  (subtreeElemsList scope).filter sel ++ shadowMatchesList sel scope

/-- The host document: its document element, and the host's URL resolution
(`absoluteUrl` wraps `new URL(href, document.baseURI)` with percent-decoded
path and a fall-through to the raw string — pure host behaviour, supplied
as a function). -/
structure Doc where
  root : Node
  resolve : String → String

/-- The scope of document-level `querySelectorAll` (the document element
and all its light-tree descendants). -/
def docScopeElems (doc : Doc) : List Node := subtreeElems doc.root

/-- Model of `absoluteUrl`. -/
def absoluteUrl (doc : Doc) (href : String) : String := doc.resolve href

/-- Model of `document.getElementById`. -/
def docGetElementById (doc : Doc) (idv : String) : Option Node :=
  (docScopeElems doc).find? fun n => n.getAttribute "id" = some idv

/-- Model of `document.body` (first `body` element in document order). -/
def docBody (doc : Doc) : Option Node :=
  (docScopeElems doc).find? fun n => n.tagName = "body"

/-- Model of `deepQueryAll(doc, sel)`. -/
def docDeepQueryAll (doc : Doc) (sel : Node → Bool) : List Node :=
  deepQueryAll [doc.root] sel

/-- The `Heading` record of the snapshot. -/
structure Heading where
  level : Nat
  text : String
  id : Option String
deriving DecidableEq, Repr

/-- Whether a (lower-case) tag is `h1` … `h6`. -/
def isHeadingTagStr (t : String) : Bool :=
  t = "h1" || t = "h2" || t = "h3" || t = "h4" || t = "h5" || t = "h6"

/-- Model of `parseInt(tagName[1], 10)` on a heading tag. -/
def headingLevelOf (tag : String) : Nat :=
  match tag.toList with
  | _ :: c :: _ => c.toNat - '0'.toNat
  | _ => 0

/-- Model of `extractHeadings`: all deep-queried heading elements that are
visible and have nonempty extracted text. -/
def extractHeadings (doc : Doc) : List Heading :=
  (docDeepQueryAll doc fun n => isHeadingTagStr n.tagName).filterMap fun el =>
    if !isVisible el then none
    else
      let text := extractText el
      if text = "" then none
      else
        some ⟨headingLevelOf el.tagName, text,
          match el.getAttribute "id" with
          | some i => if i = "" then none else some i
          | none => none⟩

/-- Truthy attribute access: `some` exactly when the attribute is present
and nonempty. -/
def truthyAttr (n : Node) (a : String) : Option String :=
  match n.getAttribute a with
  | some v => if v = "" then none else some v
  | none => none

/-- String prefix test. -/
def strStartsWith (s pre : String) : Bool := leadMatches pre.toList s.toList

/-- Model of `resolveImageSrc`: prefer a real (non-data, non-placeholder)
`src`, then the lazy-load attributes in order, then the first entry of
`srcset`, then the raw `src`. -/
def resolveImageSrc (img : Node) : Option String :=
  let src := img.getAttribute "src"
  let srcGood :=
    match src with
    | some s =>
      s ≠ "" && !strStartsWith s "data:" &&
        !containsSub "placeholder".toList (asciiLower s).toList
    | none => false
  if srcGood then src
  else
    match truthyAttr img "data-src" with
    | some v => some v
    | none =>
      match truthyAttr img "data-lazy-src" with
      | some v => some v
      | none =>
        match truthyAttr img "data-original" with
        | some v => some v
        | none =>
          let fromSrcset :=
            match truthyAttr img "srcset" with
            | some ss =>
              let first :=
                String.mk
                  (((jsTrim (String.mk (ss.toList.takeWhile (· ≠ ',')))).toList).takeWhile
                    fun c => !jsSpaceChar c)
              if first ≠ "" then some first else none
            | none => none
          match fromSrcset with
          | some f => some f
          | none =>
            match src with
            | some s => if s ≠ "" then some s else none
            | none => none

mutual

/-- Elements with a given tag that have a strict ancestor with tag `anc`
inside the scanned subtree — the descendant-combinator selectors
(`"thead th"`, `"picture img"`) restricted to the query subtree. -/
def tagUnderNode (anc target : String) (inAnc : Bool) : Node → List Node
  | .textNode _ => []
  | el@(.element t _ _ _ _ _ cs _ _) =>
    (if inAnc && t = target then [el] else []) ++
      tagUnderList anc target (inAnc || t = anc) cs

/-- List version of `tagUnderNode`. -/
def tagUnderList (anc target : String) (inAnc : Bool) : List Node → List Node
  | [] => []
  | n :: rest =>
    tagUnderNode anc target inAnc n ++ tagUnderList anc target inAnc rest

end

mutual

/-- The row selection `"tbody tr, :scope > tr"` of the table handler, in
document order: `tr` elements that are direct children of the scanned
element or have a `tbody` ancestor inside it. -/
def tableRowsNode (atTop inTbody : Bool) : Node → List Node
  | .textNode _ => []
  | el@(.element t _ _ _ _ _ cs _ _) =>
    (if t = "tr" && (inTbody || atTop) then [el] else []) ++
      tableRowsList false (inTbody || t = "tbody") cs

/-- List version of `tableRowsNode`. -/
def tableRowsList (atTop inTbody : Bool) : List Node → List Node
  | [] => []
  | n :: rest =>
    tableRowsNode atTop inTbody n ++ tableRowsList atTop inTbody rest

end

/-! ### The content-block walk (`extractContentBlocks`) -/

/-- One step of the `<dl>` scanning loop: the state is the emitted pairs
plus the pending `(term, descParts)` opened by a `dt` and still inside its
run of consecutive `dd` elements.  The source's index loop consumes, for
each `dt`, exactly the immediately following `dd` run; a pending pair is
closed (and kept only if the term is nonempty non-noise and some
description text survived) as soon as the run ends. -/
def dlStep (st : List (String × String) × Option (String × List String))
    (el : Node) : List (String × String) × Option (String × List String) :=
  if el.tagName = "dt" then (st.1 ++ dlFlush st.2, some (extractText el, []))
  else if el.tagName = "dd" then
    match st.2 with
    | some (t, ds) =>
      let desc := extractText el
      (st.1, some (t, if desc ≠ "" then ds ++ [desc] else ds))
    | none => (st.1, none)
  else (st.1 ++ dlFlush st.2, none)
where
  /-- Closing of a pending definition pair, with the source's guard
  `term && descParts.length > 0 && !isNoiseText(term)`. -/
  dlFlush : Option (String × List String) → List (String × String)
  | some (term, descs) =>
    if term ≠ "" && descs.length > 0 && !isNoiseText term then
      [(term, String.intercalate " " descs)]
    else []
  | none => []

/-- The definition pairs collected from the element children of a `<dl>`. -/
def dlPairs (children : List Node) : List (String × String) :=
  let st := children.foldl dlStep ([], none)
  st.1 ++ dlStep.dlFlush st.2

/-- The table handler of `extractContentBlocks` (rule 1A): headers from
`thead th` or the header cells of the first row, data rows from
`tbody tr, :scope > tr` with all-noise rows dropped, and a summary text
from the caption, the headers, or a row count. -/
def tableBlockOf (child : Node) (childContext : SourceCtx) : List ContentBlock :=
  let headers0 := (tagUnderList "thead" "th" false child.childNodesOf).map extractText
  let headers :=
    if headers0.length = 0 then
      match (descendantElems child).find? (fun n => n.tagName = "tr") with
      | some firstRow =>
        let ths := (descendantElems firstRow).filter fun n => n.tagName = "th"
        if ths.length > 0 then ths.map extractText else []
      | none => []
    else headers0
  let allRows := tableRowsList true false child.childNodesOf
  let rows := allRows.filterMap fun tr =>
    let tds := (descendantElems tr).filter fun n => n.tagName = "td"
    if tds.length = 0 then none
    else
      let cells := tds.map extractText
      if cells.all (fun c => c = "" || isNoiseText c) then none
      else some cells
  if rows.length > 0 then
    let summaryText :=
      match (descendantElems child).find? (fun n => n.tagName = "caption") with
      | some cap => extractText cap
      | none =>
        if headers.length > 0 then "Table: " ++ String.intercalate ", " headers
        else "Table with " ++ toString rows.length ++ " rows"
    [{ type := .table, text := summaryText,
       headers := if headers.length > 0 then some headers else none,
       rows := some rows, sourceContext := some childContext }]
  else []

/-- The live-region test of the per-child switch:
`role && LIVE_REGION_ROLES.has(role)`. -/
def isLiveRegion (el : Node) : Bool :=
  match el.getAttribute "role" with
  | some r => LIVE_REGION_ROLES.contains r
  | none => false

/-- The `childContext` computed at the top of the per-child switch: an
`article` element switches the context to `article` for itself and its
subtree. -/
def ecbChildContext (child : Node) (sourceContext : SourceCtx) : SourceCtx :=
  if child.tagName = "article" then SourceCtx.article else sourceContext

/-- The heading case of the per-child switch (rule 1 of the tag dispatch):
a heading block, unless the text is empty or an already-known heading. -/
def ecbHeadingBlock (child : Node) (knownHeadings : List String)
    (childContext : SourceCtx) : List ContentBlock :=
  let text := extractText child
  if text ≠ "" && !knownHeadings.contains text then
    [{ type := .heading, text := text,
       level := some (headingLevelOf child.tagName),
       sourceContext := some childContext }]
  else []

/-- The `<p>` case: a paragraph block, unless the text is empty, noise, or
promotional. -/
def ecbParagraphBlock (child : Node) (childContext : SourceCtx) :
    List ContentBlock :=
  let text := extractText child
  if text ≠ "" && !isNoiseText text && !isPromotionalParagraph text then
    [{ type := .paragraph, text := text, sourceContext := some childContext }]
  else []

/-- The `<ul>`/`<ol>` case: the non-empty non-noise `li` texts, emitted only
when some survive. -/
def ecbListBlock (child : Node) (childContext : SourceCtx) : List ContentBlock :=
  let items :=
    ((child.children.filter fun n => n.tagName = "li").map extractText).filter
      fun t => t ≠ "" && !isNoiseText t
  if items.length > 0 then
    [{ type := .list, text := "", items := some items,
       sourceContext := some childContext }]
  else []

/-- The `<dl>` case: the collected definition pairs, emitted only when some
survive. -/
def ecbDefinitionListBlock (child : Node) (childContext : SourceCtx) :
    List ContentBlock :=
  let defs := dlPairs child.children
  if defs.length > 0 then
    [{ type := .definitionList,
       text := String.intercalate "; " (defs.map fun d => d.1 ++ ": " ++ d.2),
       definitions := some defs, sourceContext := some childContext }]
  else []

/-- The `<blockquote>` case. -/
def ecbBlockquoteBlock (child : Node) (childContext : SourceCtx) :
    List ContentBlock :=
  let text := extractText child
  if text ≠ "" then
    [{ type := .blockquote, text := text, sourceContext := some childContext }]
  else []

/-- The `<pre>` case. -/
def ecbPreBlock (child : Node) (childContext : SourceCtx) : List ContentBlock :=
  let text := extractText child
  if text ≠ "" then
    [{ type := .preformatted, text := text, sourceContext := some childContext }]
  else []

/-- The `<figure>` case: an image block from the contained image and the
figcaption/alt display text, or a recursive walk when no image is found. -/
def ecbFigureBlocks (doc : Doc)
    (recur : List Node → List String → SourceCtx → List ContentBlock)
    (child : Node) (knownHeadings : List String) (childContext : SourceCtx) :
    List ContentBlock :=
  match ((descendantElems child).find? fun n => n.tagName = "img").orElse
      (fun _ => (tagUnderList "picture" "img" false child.childNodesOf).head?) with
  | some imgEl =>
    let figcap := (descendantElems child).find? fun n => n.tagName = "figcaption"
    let captionText := match figcap with
      | some f => extractText f
      | none => ""
    let alt := jsTrim ((imgEl.getAttribute "alt").getD "")
    let displayText := if captionText ≠ "" then captionText else alt
    if displayText ≠ "" then
      [{ type := .image, text := displayText,
         alt := some (if captionText ≠ "" then captionText else alt),
         src := (resolveImageSrc imgEl).map (absoluteUrl doc),
         sourceContext := some childContext }]
    else []
  | none => recur child.children knownHeadings childContext

/-- The `<picture>` case. -/
def ecbPictureBlock (doc : Doc) (child : Node) (childContext : SourceCtx) :
    List ContentBlock :=
  match (descendantElems child).find? (fun n => n.tagName = "img") with
  | some imgEl =>
    let alt := jsTrim ((imgEl.getAttribute "alt").getD "")
    if alt ≠ "" then
      [{ type := .image, text := alt, alt := some alt,
         src := (resolveImageSrc imgEl).map (absoluteUrl doc),
         sourceContext := some childContext }]
    else []
  | none => []

/-- The `<img>` case. -/
def ecbImgBlock (doc : Doc) (child : Node) (childContext : SourceCtx) :
    List ContentBlock :=
  let alt := jsTrim ((child.getAttribute "alt").getD "")
  if alt ≠ "" then
    [{ type := .image, text := alt, alt := some alt,
       src := (resolveImageSrc child).map (absoluteUrl doc),
       sourceContext := some childContext }]
  else []

/-- The `[role="img"]` case: an image block from a non-empty trimmed
`aria-label`. -/
def ecbAriaImgBlock (child : Node) (childContext : SourceCtx) :
    List ContentBlock :=
  match child.getAttribute "aria-label" with
  | some al0 =>
    let al := jsTrim al0
    if al ≠ "" then
      [{ type := .image, text := al, alt := some al,
         sourceContext := some childContext }]
    else []
  | none => []

/-- The `<iframe>` case: recurse into the same-origin frame body if the
host exposes one. -/
def ecbIframeBlocks
    (recur : List Node → List String → SourceCtx → List ContentBlock)
    (child : Node) (knownHeadings : List String) (childContext : SourceCtx) :
    List ContentBlock :=
  match child.frameBodyOf with
  | some b => recur b.children knownHeadings childContext
  | none => []

/-- The `<details>` case: a level-4 heading from the summary (unless known)
followed by the recursive walk of the non-summary children's children. -/
def ecbDetailsBlocks
    (recur : List Node → List String → SourceCtx → List ContentBlock)
    (child : Node) (knownHeadings : List String) (childContext : SourceCtx) :
    List ContentBlock :=
  let summaryBlocks :=
    match child.children.find? (fun n => n.tagName = "summary") with
    | some summary =>
      let summaryText := extractText summary
      if summaryText ≠ "" && !knownHeadings.contains summaryText then
        [{ type := .heading, text := summaryText, level := some 4,
           sourceContext := some childContext }]
      else []
    | none => []
  summaryBlocks ++
    (child.children.filter fun n => n.tagName ≠ "summary").flatMap
      fun dc => recur dc.children knownHeadings childContext

/-- The final fallback of the switch: descend into an open shadow root,
else into element children, else emit the element's own text as a
paragraph under the paragraph filters. -/
def ecbFallbackBlocks
    (recur : List Node → List String → SourceCtx → List ContentBlock)
    (child : Node) (knownHeadings : List String) (childContext : SourceCtx) :
    List ContentBlock :=
  match child.shadowChildren with
  | some sh => recur (elementsOf sh) knownHeadings childContext
  | none =>
    if child.children.length > 0 then
      recur child.children knownHeadings childContext
    else
      let text := extractText child
      if text ≠ "" && !isNoiseText text && !isPromotionalParagraph text then
        [{ type := .paragraph, text := text, sourceContext := some childContext }]
      else []

/-- The per-child classification of `extractContentBlocks` (first matching
rule wins, in source order): the visibility, presentational, noise and
live-region gates, then the tag dispatch, with the per-tag handlers
factored out above.  `recur` is the recursive walk at depth + 1; it is
instantiated with the fuel-decremented `extractBlocksList`. -/
def ecbChild (doc : Doc)
    (recur : List Node → List String → SourceCtx → List ContentBlock)
    (child : Node) (knownHeadings : List String) (sourceContext : SourceCtx) :
    List ContentBlock :=
  if !isVisible child then []
  else if isPresentational child then []
  else if isNoisyElement child then []
  else if isLiveRegion child then []
  else if isHeadingTagStr child.tagName then
    ecbHeadingBlock child knownHeadings (ecbChildContext child sourceContext)
  else if child.tagName = "p" then
    ecbParagraphBlock child (ecbChildContext child sourceContext)
  else if child.tagName = "ul" || child.tagName = "ol" then
    ecbListBlock child (ecbChildContext child sourceContext)
  else if child.tagName = "dl" then
    ecbDefinitionListBlock child (ecbChildContext child sourceContext)
  else if child.tagName = "blockquote" then
    ecbBlockquoteBlock child (ecbChildContext child sourceContext)
  else if child.tagName = "pre" then
    ecbPreBlock child (ecbChildContext child sourceContext)
  else if child.tagName = "table" then
    tableBlockOf child (ecbChildContext child sourceContext)
  else if child.tagName = "figure" then
    ecbFigureBlocks doc recur child knownHeadings (ecbChildContext child sourceContext)
  else if child.tagName = "picture" then
    ecbPictureBlock doc child (ecbChildContext child sourceContext)
  else if child.tagName = "img" then
    ecbImgBlock doc child (ecbChildContext child sourceContext)
  else if child.getAttribute "role" = some "img" then
    ecbAriaImgBlock child (ecbChildContext child sourceContext)
  else if child.tagName = "iframe" then
    ecbIframeBlocks recur child knownHeadings (ecbChildContext child sourceContext)
  else if child.tagName = "details" then
    ecbDetailsBlocks recur child knownHeadings (ecbChildContext child sourceContext)
  else if SKIP_TAGS.contains child.tagName then []
  else ecbFallbackBlocks recur child knownHeadings (ecbChildContext child sourceContext)

/-- The walk of `extractContentBlocks` over a child list, with the
remaining depth budget as structural fuel (fuel `0` models the
`depth > MAX_DEPTH` guard; every recursive descent runs at fuel − 1,
matching `depth + 1` in the source). -/
def extractBlocksList (doc : Doc) :
    Nat → List Node → List String → SourceCtx → List ContentBlock
  | 0, _, _, _ => []
  | fuel + 1, kids, knownHeadings, sourceContext =>
    kids.flatMap fun child =>
      ecbChild doc (extractBlocksList doc fuel) child knownHeadings sourceContext

/-- Model of `extractContentBlocks(root, knownHeadings, sourceContext,
depth)`.  At the source's call sites `depth = 0`, giving fuel
`MAX_DEPTH + 1`. -/
def extractContentBlocks (doc : Doc) (root : Node) (knownHeadings : List String)
    (sourceContext : SourceCtx) (depth : Nat) : List ContentBlock :=
  extractBlocksList doc (MAX_DEPTH + 1 - depth) root.children knownHeadings
    sourceContext

/-- Model of `extractMainContent`: the first `main` element, else the first
`[role="main"]` element, else the body; the chosen root fixes the default
`sourceContext`.  A document without a body would make the source throw on
a `null` root; the model returns no blocks in that host-error case. -/
def extractMainContent (doc : Doc) (knownHeadings : List String) :
    List ContentBlock :=
  let mainEl :=
    ((docScopeElems doc).find? fun n => n.tagName = "main").orElse
      fun _ => (docScopeElems doc).find? fun n => n.getAttribute "role" = some "main"
  match mainEl with
  | some m => extractContentBlocks doc m knownHeadings .main 0
  | none =>
    match docBody doc with
    | some b => extractContentBlocks doc b knownHeadings .body 0
    | none => []

/-- The heading harvest of `extractPageSnapshot`: the texts of the
separately extracted page headings
(`new Set(headings.map((h) => h.text))`). -/
def pageKnownHeadings (doc : Doc) : List String :=
  (extractHeadings doc).map (·.text)

/-- The main-content walk of `extractPageSnapshot`:
`extractMainContent(doc, knownHeadings)`. -/
def pageMainContent (doc : Doc) : List ContentBlock :=
  extractMainContent doc (pageKnownHeadings doc)

mutual

/-- Elements reachable from the given roots through light children and open
shadow roots, but never through an iframe boundary. -/
def reachNoFrameNode : Node → List Node
  | .textNode _ => []
  | el@(.element _ _ _ _ _ _ cs sh _) =>
    el :: (reachNoFrameList cs ++
      (match sh with
       | some shk => reachNoFrameList shk
       | none => []))

/-- List version of `reachNoFrameNode`. -/
def reachNoFrameList : List Node → List Node
  | [] => []
  | n :: rest => reachNoFrameNode n ++ reachNoFrameList rest

end

/-- Elements of a document reachable without crossing an iframe. -/
def docReachableNoFrames (doc : Doc) : List Node := reachNoFrameNode doc.root

/-! ### Forms (`extractForms`) -/

/-- The `SelectOption` record. -/
structure SelectOption where
  value : String
  label : String
deriving DecidableEq, Repr

/-- The `FormField` record. -/
structure FormField where
  type : String
  name : String
  label : String
  required : Bool
  value : Option String := none
  options : Option (List SelectOption) := none
deriving DecidableEq, Repr

/-- The `FormSnapshot` record. -/
structure FormSnapshot where
  action : String
  method : String
  label : Option String := none
  fields : List FormField
deriving DecidableEq, Repr

/-- Splitting on single spaces (used after whitespace collapsing to model
`split(/\s+/)` piece lists). -/
def splitSpGo : List Char → List Char → List String
  | [], cur => [String.mk cur.reverse]
  | c :: r, cur =>
    if c = ' ' then String.mk cur.reverse :: splitSpGo r []
    else splitSpGo r (c :: cur)

/-- Model of `s.split(/\s+/)` as a piece list. -/
def jsSplitWs (s : String) : List String := splitSpGo (collapseWs s).toList []

/-- The `aria-labelledby` resolution shared by `getAccessibleName` and
`getFormLabel`: referenced elements' trimmed text contents, joined with
spaces when any survive. -/
def labelledByParts (doc : Doc) (lb : String) : List String :=
  (jsSplitWs lb).filterMap fun idv =>
    match docGetElementById doc idv with
    | some e =>
      let t := jsTrim (textContentOf e)
      if t ≠ "" then some t else none
    | none => none

/-- The `labels` collection of a labelable element, modelled as the `label`
elements of the document whose `for` attribute matches the element's id
(host association; ancestor labels are additionally covered by the
`closest("label")` branch that follows it in the source). -/
def hostLabelsOf (doc : Doc) (el : Node) : List Node :=
  match truthyAttr el "id" with
  | some i =>
    (docScopeElems doc).filter fun l =>
      l.tagName = "label" && l.getAttribute "for" == some i
  | none => []

/-- Tags for which the source's `el instanceof HTMLElement && "labels" in el`
test holds among the queried field elements. -/
def labelableTags : List String := ["input", "select", "textarea"]

/-- Model of `getAccessibleName`.  `ancestorLabel` is the host's
`el.closest("label")` result, supplied by the caller (the field walk below
tracks the nearest ancestor label). -/
def getAccessibleName (doc : Doc) (ancestorLabel : Option Node) (el : Node) :
    String :=
  let labelledBy :=
    match truthyAttr el "aria-labelledby" with
    | some lb =>
      let parts := labelledByParts doc lb
      if parts.length > 0 then some (String.intercalate " " parts) else none
    | none => none
  match labelledBy with
  | some s => s
  | none =>
    match (truthyAttr el "aria-label").map jsTrim with
    | some al =>
      if al ≠ "" then al else getAccessibleNameRest doc ancestorLabel el
    | none => getAccessibleNameRest doc ancestorLabel el
where
  /-- The branches of `getAccessibleName` after the aria attributes. -/
  getAccessibleNameRest (doc : Doc) (ancestorLabel : Option Node) (el : Node) :
      String :=
    let fromLabels :=
      if labelableTags.contains el.tagName then
        let labels := hostLabelsOf doc el
        if labels.length > 0 then
          some (String.intercalate " "
            ((labels.map fun l => jsTrim (textContentOf l)).filter (· ≠ "")))
        else none
      else none
    match fromLabels with
    | some s => s
    | none =>
      let fromAncestor :=
        match ancestorLabel with
        | some lab =>
          let t := jsTrim (textContentOf lab)
          if t ≠ "" then some t else none
        | none => none
      match fromAncestor with
      | some s => s
      | none =>
        match (truthyAttr el "title").map jsTrim with
        | some t =>
          if t ≠ "" then t else getAccessibleNameTail el
        | none => getAccessibleNameTail el
  /-- The placeholder and text-content fallbacks. -/
  getAccessibleNameTail (el : Node) : String :=
    let fromPlaceholder :=
      if el.tagName = "input" || el.tagName = "textarea" then
        match (truthyAttr el "placeholder").map jsTrim with
        | some p => if p ≠ "" then some p else none
        | none => none
      else none
    match fromPlaceholder with
    | some s => s
    | none => jsTrim (textContentOf el)

mutual

/-- Preorder collection of the `legend` elements whose parent is a
`fieldset`, modelling `querySelector("fieldset > legend")` over a scanned
subtree. -/
def legendsInNode (parentIsFieldset : Bool) : Node → List Node
  | .textNode _ => []
  | el@(.element t _ _ _ _ _ cs _ _) =>
    (if parentIsFieldset && t = "legend" then [el] else []) ++
      legendsInList (t = "fieldset") cs

/-- List version of `legendsInNode`. -/
def legendsInList (parentIsFieldset : Bool) : List Node → List Node
  | [] => []
  | n :: rest =>
    legendsInNode parentIsFieldset n ++ legendsInList parentIsFieldset rest

end

/-- Model of `getFormLabel`: aria-labelledby, aria-label, title, then the
first `fieldset > legend` text. -/
def getFormLabel (doc : Doc) (form : Node) : Option String :=
  let labelledBy :=
    match truthyAttr form "aria-labelledby" with
    | some lb =>
      let parts := labelledByParts doc lb
      if parts.length > 0 then some (String.intercalate " " parts) else none
    | none => none
  match labelledBy with
  | some s => some s
  | none =>
    match (truthyAttr form "aria-label").map jsTrim with
    | some al => if al ≠ "" then some al else getFormLabelRest doc form
    | none => getFormLabelRest doc form
where
  /-- The title and legend fallbacks of `getFormLabel`. -/
  getFormLabelRest (_doc : Doc) (form : Node) : Option String :=
    match (truthyAttr form "title").map jsTrim with
    | some t => if t ≠ "" then some t else getFormLabelLegend form
    | none => getFormLabelLegend form
  /-- The `fieldset > legend` fallback of `getFormLabel`. -/
  getFormLabelLegend (form : Node) : Option String :=
    match (legendsInList false form.childNodesOf).head? with
    | some legend =>
      let text := extractText legend
      if text ≠ "" then some text else none
    | none => none

mutual

/-- Preorder collection of the `input`/`select`/`textarea` descendants of a
form (the scope of `form.querySelectorAll("input, select, textarea")`),
paired with the nearest ancestor `label` inside the walked subtree (the
host's `closest("label")`). -/
def fieldCandidatesNode (ancLabel : Option Node) : Node → List (Node × Option Node)
  | .textNode _ => []
  | el@(.element t _ _ _ _ _ cs _ _) =>
    (if labelableTags.contains t then [(el, ancLabel)] else []) ++
      fieldCandidatesList (if t = "label" then some el else ancLabel) cs

/-- List version of `fieldCandidatesNode`. -/
def fieldCandidatesList (ancLabel : Option Node) :
    List Node → List (Node × Option Node)
  | [] => []
  | n :: rest =>
    fieldCandidatesNode ancLabel n ++ fieldCandidatesList ancLabel rest

end

/-- The per-field extraction of `extractForms`: visibility and honeypot
filtering, the type computation, the `hidden` skip, and the field record.
Reflected host properties (`type`, `name`, `required`, `value`) are
modelled through the corresponding attributes. -/
def extractFieldOf (doc : Doc) (cand : Node × Option Node) : Option FormField :=
  let el := cand.1
  if !isVisible el then none
  else if el.getAttribute "tabindex" == some "-1" then none
  else
    let tagName := el.tagName
    let type :=
      if tagName = "textarea" then "textarea"
      else if tagName = "select" then "select"
      else ((truthyAttr el "type").getD "text")
    if type = "hidden" then none
    else
      let label := getAccessibleName doc cand.2 el
      let valueStr := (el.getAttribute "value").getD ""
      let base : FormField :=
        { type := type, name := (el.getAttribute "name").getD "",
          label := label,
          required := el.hasAttribute "required" ||
            el.getAttribute "aria-required" == some "true",
          value := if valueStr ≠ "" then some valueStr else none }
      if type = "select" then
        let opts :=
          ((descendantElems el).filter fun n => n.tagName = "option").map fun opt =>
            let text := jsTrim (collapseWs (textContentOf opt))
            { value := (opt.getAttribute "value").getD text,
              label := text : SelectOption }
        some { base with options := some opts }
      else some base

/-- The resolved action of a form element:
`form.action ? absoluteUrl(form.action) : ""`.  The host-reflected
`form.action` property is modelled through the `action` attribute; per the
DOM reflection rules the real property falls back to the document URL and
is therefore never empty, which theorems about deduplication take as a
hypothesis. -/
def formResolvedAction (doc : Doc) (form : Node) : String :=
  let actionProp := (form.getAttribute "action").getD ""
  if actionProp ≠ "" then absoluteUrl doc actionProp else ""

/-- The form loop of `extractForms`, carrying `seenActions` and the
accumulated snapshots. -/
def extractFormsGo (doc : Doc) :
    List Node → List String → List FormSnapshot → List FormSnapshot
  | [], _, forms => forms
  | form :: rest, seenActions, forms =>
    if !isVisible form then extractFormsGo doc rest seenActions forms
    else
      let action := formResolvedAction doc form
      if action ≠ "" && seenActions.contains action then
        extractFormsGo doc rest seenActions forms
      else
        let seen := if action ≠ "" then seenActions ++ [action] else seenActions
        let fields :=
          (fieldCandidatesList none form.childNodesOf).filterMap
            (extractFieldOf doc)
        let methodRaw := (form.getAttribute "method").getD ""
        let method := asciiUpper (if methodRaw ≠ "" then methodRaw else "get")
        extractFormsGo doc rest seen
          (forms ++ [{ action := action, method := method,
                       label := getFormLabel doc form, fields := fields }])

/-- Model of `extractForms`. -/
def extractForms (doc : Doc) : List FormSnapshot :=
  extractFormsGo doc (docDeepQueryAll doc fun n => n.tagName = "form") [] []

/-! ### Specification-side definitions

The following definitions are written from the specification's wording and
are compared against the embedded source functions by the theorems below. -/

/-- Classic median of a score multiset: middle element of an ascending
arrangement for odd counts, average of the two middle elements for even
counts (and `0` for an empty list, where it is never used). -/
def classicMedian (scores : List ℚ) : ℚ :=
  let s := scores.mergeSort fun a b => decide (a ≤ b)
  if scores.length = 0 then 0
  else if scores.length % 2 = 1 then s.getD (scores.length / 2) 0
  else
    (s.getD (scores.length / 2 - 1) 0 + s.getD (scores.length / 2) 0) / 2

/-- The collapse threshold of the specification: `max(5, median)` over the
final group scores. -/
def specThreshold (groups : List ContentGroup) : ℚ :=
  max 5 (classicMedian (groups.map (·.score)))

/-- Whether a block is not a heading block. -/
def notHeadingBlock (b : ContentBlock) : Bool := b.type != .heading

/-- Specification-side partitioning, tail part: each heading opens a
section holding the run of non-heading blocks that follows it. -/
def specTailSections : List ContentBlock → List ContentGroup
  | [] => []
  | h :: tl =>
    ⟨some ⟨h.text, h.level.getD 2⟩, tl.takeWhile notHeadingBlock, 0, false⟩ ::
      specTailSections (tl.dropWhile notHeadingBlock)
termination_by l => l.length
decreasing_by
  simp only [List.length_cons]
  exact Nat.lt_succ_of_le (List.dropWhile_sublist notHeadingBlock).length_le

/-- Specification-side partitioning: a leading headingless section (emitted
only if non-empty) followed by one section per heading. -/
def specSections (blocks : List ContentBlock) : List ContentGroup :=
  let lead := blocks.takeWhile notHeadingBlock
  (if lead = [] then [] else [⟨none, lead, 0, false⟩]) ++
    specTailSections (blocks.dropWhile notHeadingBlock)

/-- Specification-side dominant context: the first of `main`, `article`,
`body` (in that fixed preference order) whose occurrence count is maximal;
a group with zero blocks has all counts zero and is therefore `main`. -/
def specDominant (blocks : List ContentBlock) : SourceCtx :=
  let cMain := ctxCount blocks .main
  let cArticle := ctxCount blocks .article
  let cBody := ctxCount blocks .body
  if cMain ≥ cArticle ∧ cMain ≥ cBody then .main
  else if cArticle ≥ cMain ∧ cArticle ≥ cBody then .article
  else .body

/-- Specification-side group score: block-score sum plus the two bonuses,
halved when strictly more than 60 % of the blocks scored zero or less. -/
def specGroupScore (group : ContentGroup) (repetitionSet : List String) : ℚ :=
  let base := (group.blocks.map (blockScoreOf repetitionSet)).sum
  let ctxBonus : ℚ :=
    match specDominant group.blocks with
    | .main => 2
    | .article => 1.5
    | .body => 0
  let headingBonus : ℚ :=
    match group.heading with
    | some h =>
      if 3 ≤ jsSplitWsLength h.text ∧ jsSplitWsLength h.text ≤ 10 then 2 else 0
    | none => 0
  let zeroCnt :=
    (group.blocks.filter fun b => blockScoreOf repetitionSet b ≤ 0).length
  let subtotal := base + ctxBonus + headingBonus
  if 5 * zeroCnt > 3 * group.blocks.length then subtotal / 2 else subtotal

/-- Whether a chunk of blocks ends with three consecutive product-like
blocks (the closing condition of the secondary splitter). -/
def endsWithProductRun (blocks : List ContentBlock) : Bool :=
  blocks.length ≥ 3 && (blocks.reverse.take 3).all isProductLike

/-- The per-block emission invariant claimed for the extractor: every
emitted block carries non-empty classification-relevant text of its kind. -/
def goodBlock (b : ContentBlock) : Bool :=
  match b.type with
  | .paragraph => b.text ≠ ""
  | .blockquote => b.text ≠ ""
  | .preformatted => b.text ≠ ""
  | .image => b.text ≠ ""
  | .heading => true
  | .list =>
    match b.items with
    | some items =>
      items.length > 0 && items.all fun t => t ≠ "" && !isNoiseText t
    | none => false
  | .table =>
    match b.rows with
    | some rows =>
      rows.length > 0 &&
        rows.all fun r => !(r.all fun c => c = "" || isNoiseText c)
    | none => false
  | .definitionList =>
    match b.definitions with
    | some ds =>
      ds.length > 0 &&
        ds.all fun d => d.1 ≠ "" && !isNoiseText d.1 && d.2 ≠ ""
    | none => false

/-- The combined per-block invariant of the content walk: the block is
good, an emitted heading text is never an already-known heading, and a
list block carries the empty canonical text. -/
def walkOk (kh : List String) (b : ContentBlock) : Bool :=
  goodBlock b && (b.type != .heading || !kh.contains b.text) &&
    (b.type != .list || b.text == "")

/-- The `<dl>` loop invariant: every emitted pair has a non-empty non-noise
term and a non-empty description, and every pending description part is
non-empty. -/
def dlInv (st : List (String × String) × Option (String × List String)) : Prop :=
  (∀ p ∈ st.1, (p.1 ≠ "" && !isNoiseText p.1 && p.2 ≠ "") = true) ∧
  (∀ t ds, st.2 = some (t, ds) → ∀ d ∈ ds, d ≠ "")

/-- First-occurrence deduplication, keeping initial entries
(specification-side). -/
def dedupFirstGo (seen : List String) : List String → List String
  | [] => []
  | a :: r =>
    if seen.contains a then dedupFirstGo seen r
    else a :: dedupFirstGo (seen ++ [a]) r

/-- First-occurrence deduplication of a list. -/
def dedupKeepFirst (l : List String) : List String := dedupFirstGo [] l

/-- Lookup of the running frequency list (first matching key),
`freq.get(t) ?? 0`. -/
def lookupCount : List (String × Nat) → String → Nat
  | [], _ => 0
  | p :: r, t => if p.1 = t then p.2 else lookupCount r t

/-- The partition continuation from an open group (proof support for the
refinement of `partitionLoop`). -/
def partFrom (cur : ContentGroup) (bs : List ContentBlock) : List ContentGroup :=
  let lead := bs.takeWhile notHeadingBlock
  pushIfLive [] { cur with blocks := cur.blocks ++ lead } ++
    specTailSections (bs.dropWhile notHeadingBlock)

/-- Concatenation of all blocks over a group list. -/
def groupsBlocksFlat (gs : List ContentGroup) : List ContentBlock :=
  gs.flatMap (·.blocks)

/-! ### Concrete inputs used by witnesses and counterexamples -/

/-- A paragraph block with the given text. -/
def egPara (t : String) : ContentBlock := { type := .paragraph, text := t }

/-- A level-2 heading block. -/
def egHeading (t : String) : ContentBlock :=
  { type := .heading, text := t, level := some 2 }

/-- A blockquote block. -/
def egQuote (t : String) : ContentBlock := { type := .blockquote, text := t }

/-- A nine-word product-like paragraph (no terminal punctuation). -/
def egNineWords (seed : String) : ContentBlock :=
  egPara (seed ++ "a " ++ seed ++ "b " ++ seed ++ "c " ++ seed ++ "d " ++
    seed ++ "e " ++ seed ++ "f " ++ seed ++ "g " ++ seed ++ "h " ++ seed ++ "i")

/-- The block sequence refuting the final-collapse reading of the secondary
splitter: a single headingless run of eleven blocks, seven of them
product-like (share 7/11 > 0.6), whose rich blockquotes push the section
score to 22.3, at the adaptive threshold, so the final marking expands
it. -/
def c6Blocks : List ContentBlock :=
  [egNineWords "p", egNineWords "q", egNineWords "r", egNineWords "s",
   egNineWords "t", egNineWords "u", egNineWords "v",
   egQuote "quote one", egQuote "quote two", egQuote "quote three",
   egQuote "quote four"]

/-- A ten-word paragraph block. -/
def egTenWords : ContentBlock :=
  egPara "alpha bravo charlie delta echo foxtrot golf hotel india juliet"

/-- Blocks repeating the text `Buy now` in three separate sections. -/
def c3Blocks : List ContentBlock :=
  [egHeading "A", egTenWords, egPara "Buy now",
   egHeading "B", egPara "kilo lima mike november oscar papa quebec romeo sierra tango",
   egPara "Buy now",
   egHeading "C", egPara "uniform victor whiskey xray yankee zulu able baker charlie dog",
   egPara "Buy now"]

/-- A table block with two data rows. -/
def egTable : ContentBlock :=
  { type := .table, text := "Table: Name, Age",
    headers := some ["Name", "Age"],
    rows := some [["Alice", "30"], ["Bob", "25"]] }

/-- Three list blocks with empty canonical text, as the extractor emits
them. -/
def c10Blocks : List ContentBlock :=
  [{ type := .list, text := "", items := some ["one item", "two item"] },
   egTenWords,
   { type := .list, text := "", items := some ["three item"] },
   { type := .list, text := "", items := some ["four item", "five item"] }]

/-- A visible element without attributes. -/
def egElem (tag : String) (cs : List Node) : Node :=
  .element tag [] "" "" "" false cs none none

/-- A visible element with attributes. -/
def egElemA (tag : String) (attrs : List (String × String)) (cs : List Node) :
    Node :=
  .element tag attrs "" "" "" false cs none none

/-- A document used by extractor witnesses: a body holding a heading, a
paragraph, a list, a details widget and two forms sharing an action. -/
def egDoc : Doc :=
  { root := egElem "html"
      [egElem "body"
        [egElem "h1" [.textNode "Page Title"],
         egElem "main"
           [egElem "h2" [.textNode "Page Title"],
            egElem "p" [.textNode "a sentence with seven words of prose"],
            egElem "ul" [egElem "li" [.textNode "first item text"],
                         egElem "li" [.textNode "$42"]],
            egElem "details"
              [egElem "summary" [.textNode "More details"],
               egElem "p" [.textNode "hidden prose revealed by the widget"]]],
         egElemA "form" [("action", "/submit")]
           [egElemA "input" [("type", "text"), ("name", "q")] []],
         egElemA "form" [("action", "/submit")]
           [egElemA "input" [("type", "text"), ("name", "r")] []],
         egElemA "form" [("action", "/other")] []]],
    resolve := fun s => "https://example.test" ++ s }


/-! ## Theorems -/

lemma mergeSortQ_eq_insertionSort (l : List ℚ) :
    (l.mergeSort fun a b => decide (a ≤ b)) = List.insertionSort (· ≤ ·) l := by
  refine List.eq_of_perm_of_sorted
    ((List.mergeSort_perm l _).trans (List.perm_insertionSort (· ≤ ·) l).symm) ?_
    (List.sorted_insertionSort _ l)
  have h := @List.sorted_mergeSort ℚ (fun a b : ℚ => decide (a ≤ b))
    (fun a b c hab hbc => by simp only [decide_eq_true_eq] at *; exact le_trans hab hbc)
    (fun a b => by simp only [Bool.or_eq_true, decide_eq_true_eq]; exact le_total a b) l
  exact h.imp (by intro a b hb; simpa using hb)

lemma markCollapsedGroups_map_score (gs : List ContentGroup) (t : ℚ) :
    (markCollapsedGroups gs t).map (·.score) = gs.map (·.score) := by
  simp [markCollapsedGroups, List.map_map, Function.comp]

lemma insertionSort_median_eq_classic (l : List ℚ) :
    (if (List.insertionSort (· ≤ ·) l).length > 0 then
      if (List.insertionSort (· ≤ ·) l).length % 2 = 1 then
        (List.insertionSort (· ≤ ·) l).getD ((List.insertionSort (· ≤ ·) l).length / 2) 0
      else
        ((List.insertionSort (· ≤ ·) l).getD ((List.insertionSort (· ≤ ·) l).length / 2 - 1) 0 +
          (List.insertionSort (· ≤ ·) l).getD ((List.insertionSort (· ≤ ·) l).length / 2) 0) / 2
    else 0) = classicMedian l := by
  rw [classicMedian, mergeSortQ_eq_insertionSort]
  have hlen : (List.insertionSort (· ≤ ·) l).length = l.length :=
    (List.perm_insertionSort (· ≤ ·) l).length_eq
  rw [hlen]
  rcases Nat.eq_zero_or_pos l.length with h | h
  · simp [h]
  · simp only [h, if_pos, Nat.pos_iff_ne_zero.mp h, if_neg]
    split <;> rfl

/-- Every group returned by `groupAndScoreContent` carries a `collapsed`
flag that equals the comparison of its final score against the adaptive
threshold `max(5, median)` of all final scores. -/
lemma final_collapsed_iff (blocks : List ContentBlock) :
    ∀ g ∈ groupAndScoreContent blocks,
      g.collapsed = decide (g.score < specThreshold (groupAndScoreContent blocks)) := by
  intro g hg
  unfold groupAndScoreContent at hg ⊢
  set scored := (groupContentByHeadings blocks).map
    (fun g => { g with score := scoreContentGroup g (buildRepetitionSet (groupContentByHeadings blocks)) }) with hscored
  rw [markCollapsedGroups] at hg
  simp only [List.mem_map] at hg
  obtain ⟨g0, hg0, rfl⟩ := hg
  simp only [specThreshold, markCollapsedGroups_map_score]
  rw [← insertionSort_median_eq_classic (scored.map (·.score))]

/-- Claim C1: for every input block sequence, the computed collapse
threshold is `max(5, median)` of the group scores (classic median over the
ascending arrangement), a group is collapsed exactly when its score is
strictly below that threshold, and expanded otherwise. -/
theorem claim_C1 (blocks : List ContentBlock) :
    ∀ g ∈ groupAndScoreContent blocks,
      g.collapsed = decide (g.score < specThreshold (groupAndScoreContent blocks)) :=
  final_collapsed_iff blocks

unseal Rat.add Rat.mul Rat.sub Rat.inv Rat.ofScientific in
/-- Witness for claim C1 at a one-paragraph input. -/
theorem claim_C1_witness :
    (⟨none, [egTenWords], 1, true⟩ : ContentGroup).collapsed =
      decide ((⟨none, [egTenWords], 1, true⟩ : ContentGroup).score <
        specThreshold (groupAndScoreContent [egTenWords])) :=
  claim_C1 [egTenWords] _ (by decide)

/-- Claim C2: for a block whose text is not globally repeated, the
per-block score is fixed by its type exactly as specified; in particular a
table with two data rows contributes exactly 3.6. -/
theorem claim_C2 (rep : List String) (b : ContentBlock)
    (h : rep.contains b.text = false) :
    (b.type = .paragraph → blockScoreOf rep b =
      (if 5 ≤ jsSplitWsLength b.text then min ((jsSplitWsLength b.text : ℚ) / 10) 5 else 0)) ∧
    (b.type = .list → blockScoreOf rep b = (0.5 : ℚ) * ((b.items.getD []).length : ℚ)) ∧
    (b.type = .image → blockScoreOf rep b = 3) ∧
    (b.type = .blockquote → blockScoreOf rep b = 4) ∧
    (b.type = .preformatted → blockScoreOf rep b = 4) ∧
    (b.type = .table → blockScoreOf rep b =
      min ((3 : ℚ) + (0.3 : ℚ) * ((b.rows.getD []).length : ℚ)) 10) ∧
    (b.type = .definitionList → blockScoreOf rep b =
      min ((1.0 : ℚ) * ((b.definitions.getD []).length : ℚ)) 8) ∧
    (b.type = .table → (b.rows.getD []).length = 2 → blockScoreOf rep b = (3.6 : ℚ)) := by
  have hn : ¬ (rep.contains b.text = true) := by rw [h]; simp
  refine ⟨?_, ?_, ?_, ?_, ?_, ?_, ?_, ?_⟩ <;> intro ht
  · rw [blockScoreOf, if_neg hn, ht]
  · rw [blockScoreOf, if_neg hn, ht]; ring
  · rw [blockScoreOf, if_neg hn, ht]
  · rw [blockScoreOf, if_neg hn, ht]
  · rw [blockScoreOf, if_neg hn, ht]
  · rw [blockScoreOf, if_neg hn, ht]; ring_nf
  · rw [blockScoreOf, if_neg hn, ht, mul_comm (1.0 : ℚ)]
  · intro h2; rw [blockScoreOf, if_neg hn, ht, h2]; norm_num

unseal Rat.add Rat.mul Rat.sub Rat.inv Rat.ofScientific in
/-- Witness for claim C2: the concrete two-row table scores 3.6. -/
theorem claim_C2_witness : blockScoreOf [] egTable = (3.6 : ℚ) :=
  (claim_C2 [] egTable (by decide)).2.2.2.2.2.2.2 rfl (by decide)

lemma lookupCount_map_bump_ne (f : List (String × Nat)) (tp t : String) (hne : tp ≠ t) :
    lookupCount (f.map fun p => if p.1 = tp then (p.1, p.2 + 1) else p) t =
      lookupCount f t := by
  induction f with
  | nil => rfl
  | cons p r ih =>
    simp only [List.map_cons, lookupCount]
    rcases eq_or_ne p.1 tp with hp | hp
    · have hpt : p.1 ≠ t := by rw [hp]; exact hne
      simp [hp, hpt, hne, ih]
    · rcases eq_or_ne p.1 t with hpt | hpt
      · have h2 : t ≠ tp := Ne.symm hne
        simp [hp, hpt, h2, ih]
      · simp [hp, hpt, ih]

lemma lookupCount_map_bump_eq (f : List (String × Nat)) (t : String)
    (hmem : f.any (fun p => p.1 = t) = true) :
    lookupCount (f.map fun p => if p.1 = t then (p.1, p.2 + 1) else p) t =
      lookupCount f t + 1 := by
  induction f with
  | nil => simp at hmem
  | cons p r ih =>
    simp only [List.map_cons, lookupCount]
    rcases eq_or_ne p.1 t with hp | hp
    · simp [hp]
    · have hr : r.any (fun p => p.1 = t) = true := by
        simp only [List.any_cons, Bool.or_eq_true, decide_eq_true_eq] at hmem
        rcases hmem with h | h
        · exact absurd h hp
        · simpa using h
      simp [hp, ih hr]

lemma lookupCount_zero_of_not_any (f : List (String × Nat)) (t : String)
    (h : f.any (fun p => p.1 = t) = false) : lookupCount f t = 0 := by
  induction f with
  | nil => rfl
  | cons p r ih =>
    simp only [List.any_cons, Bool.or_eq_false_iff, decide_eq_false_iff_not] at h
    rw [lookupCount, if_neg h.1]
    exact ih (by simp [h.2])

lemma lookupCount_append_single (f : List (String × Nat)) (tp t : String) (n : Nat) :
    lookupCount (f ++ [(tp, n)]) t =
      (if f.any (fun p => p.1 = t) = true then lookupCount f t
       else if tp = t then n else 0) := by
  induction f with
  | nil => simp [lookupCount]
  | cons p r ih =>
    simp only [List.cons_append, lookupCount, List.any_cons, Bool.or_eq_true,
      decide_eq_true_eq]
    rcases eq_or_ne p.1 t with hp | hp
    · simp [hp]
    · rw [if_neg hp]
      simp only [List.append_eq]
      rw [ih]
      by_cases hr : (r.any fun p => decide (p.1 = t)) = true <;> simp [hp, hr]

lemma lookupCount_bumpFreq (f : List (String × Nat)) (tp t : String) :
    lookupCount (bumpFreq f tp) t =
      lookupCount f t + (if tp = t then 1 else 0) := by
  unfold bumpFreq
  by_cases hany : (f.any fun p => p.1 = tp) = true
  · rw [if_pos hany]
    rcases eq_or_ne tp t with ht | ht
    · subst ht
      rw [lookupCount_map_bump_eq f tp hany]
      simp
    · rw [lookupCount_map_bump_ne f tp t ht]
      simp [ht]
  · rw [if_neg hany, lookupCount_append_single]
    rcases eq_or_ne tp t with ht | ht
    · subst ht
      rw [lookupCount_zero_of_not_any f tp (by simp only [Bool.not_eq_true] at hany; exact hany)]
      simp [hany]
    · by_cases hft : f.any (fun p => p.1 = t) = true
      · simp [hft, ht]
      · rw [lookupCount_zero_of_not_any f t (by simp only [Bool.not_eq_true] at hft; exact hft)]
        simp [hft, ht]

lemma lookupCount_foldl (texts : List String) :
    ∀ (f : List (String × Nat)) (t : String),
      lookupCount (texts.foldl bumpFreq f) t = lookupCount f t + texts.count t := by
  induction texts with
  | nil => intro f t; simp
  | cons x xs ih =>
    intro f t
    rw [List.foldl_cons, ih, lookupCount_bumpFreq, List.count_cons]
    rcases eq_or_ne x t with hx | hx
    · subst hx
      simp only [if_pos rfl, beq_self_eq_true, if_true]
      omega
    · have hbeq : (x == t) = false := by simp [hx]
      simp only [if_neg hx, hbeq, Bool.false_eq_true, if_false]
      omega

lemma keys_bumpFreq_nodup (f : List (String × Nat)) (t : String)
    (h : (f.map (·.1)).Nodup) : ((bumpFreq f t).map (·.1)).Nodup := by
  unfold bumpFreq
  by_cases hany : (f.any fun p => p.1 = t) = true
  · rw [if_pos hany]
    have heq : (f.map fun p => if p.1 = t then (p.1, p.2 + 1) else p).map (·.1) =
        f.map (·.1) := by
      rw [List.map_map]
      apply List.map_congr_left
      intro p _
      by_cases hp : p.1 = t <;> simp [hp]
    rw [heq]
    exact h
  · rw [if_neg hany]
    have hnot : t ∉ f.map (·.1) := by
      intro hmem
      rcases List.mem_map.mp hmem with ⟨p, hpf, hpt⟩
      simp only [Bool.not_eq_true, List.any_eq_false, decide_eq_false_iff_not] at hany
      exact hany p hpf hpt
    simp [List.nodup_append, h, hnot]

lemma lookupCount_of_mem_nodup (f : List (String × Nat)) (p : String × Nat)
    (hmem : p ∈ f) (h : (f.map (·.1)).Nodup) : lookupCount f p.1 = p.2 := by
  induction f with
  | nil => simp at hmem
  | cons q r ih =>
    rcases List.mem_cons.mp hmem with rfl | hmem2
    · simp [lookupCount]
    · have hq : q.1 ≠ p.1 := by
        intro he
        have : q.1 ∈ r.map (·.1) := he ▸ List.mem_map.mpr ⟨p, hmem2, rfl⟩
        exact (List.nodup_cons.mp h).1 this
      rw [lookupCount, if_neg hq]
      exact ih hmem2 (List.nodup_cons.mp h).2

lemma mem_of_lookupCount_pos (f : List (String × Nat)) (t : String)
    (h : 0 < lookupCount f t) : (t, lookupCount f t) ∈ f := by
  induction f with
  | nil => simp [lookupCount] at h
  | cons q r ih =>
    by_cases hq : q.1 = t
    · rw [lookupCount, if_pos hq] at h ⊢
      have he : (t, q.2) = q := by rw [← hq]
      rw [he]
      exact List.mem_cons_self q r
    · rw [lookupCount, if_neg hq] at h ⊢
      exact List.mem_cons_of_mem q (ih h)

lemma freq_keys_nodup (texts : List String) :
    ∀ (f : List (String × Nat)), (f.map (·.1)).Nodup →
      ((texts.foldl bumpFreq f).map (·.1)).Nodup := by
  induction texts with
  | nil => intro f h; exact h
  | cons x xs ih =>
    intro f h
    exact ih _ (keys_bumpFreq_nodup f x h)

/-- Membership in the repetition set is exactly a global text frequency of
at least three. -/
lemma mem_buildRepetitionSet_iff (groups : List ContentGroup) (t : String) :
    t ∈ buildRepetitionSet groups ↔
      3 ≤ (allGroupBlockTexts groups).count t := by
  unfold buildRepetitionSet
  have hnodup := freq_keys_nodup (allGroupBlockTexts groups) [] (by simp)
  have hfold := lookupCount_foldl (allGroupBlockTexts groups) [] t
  simp only [lookupCount] at hfold
  constructor
  · intro hmem
    rcases List.mem_map.mp hmem with ⟨p, hpfil, hpt⟩
    rcases List.mem_filter.mp hpfil with ⟨hpf, hp3⟩
    have hlk := lookupCount_of_mem_nodup _ p hpf hnodup
    rw [hpt] at hlk
    simp only [decide_eq_true_eq] at hp3
    omega
  · intro h3
    have hpos : 0 < lookupCount ((allGroupBlockTexts groups).foldl bumpFreq []) t := by
      omega
    have hmem := mem_of_lookupCount_pos _ t hpos
    refine List.mem_map.mpr ⟨(t, lookupCount ((allGroupBlockTexts groups).foldl bumpFreq []) t), ?_, rfl⟩
    refine List.mem_filter.mpr ⟨hmem, ?_⟩
    simp only [decide_eq_true_eq]
    omega

/-- Claim C3: a block text occurring at least three times across all groups
is exactly what enters the repetition set, and any block whose text is in
that set scores exactly −1, overriding its type-based score, wherever it
occurs. -/
theorem claim_C3 (blocks : List ContentBlock) :
    (∀ t : String,
      3 ≤ (allGroupBlockTexts (groupContentByHeadings blocks)).count t ↔
        t ∈ buildRepetitionSet (groupContentByHeadings blocks)) ∧
    (∀ b : ContentBlock,
      b.text ∈ buildRepetitionSet (groupContentByHeadings blocks) →
        blockScoreOf (buildRepetitionSet (groupContentByHeadings blocks)) b = -1) := by
  refine ⟨fun t => (mem_buildRepetitionSet_iff _ t).symm, fun b hb => ?_⟩
  rw [blockScoreOf, if_pos ?_]
  exact List.elem_iff.mpr hb

/-- Witness for claim C3 at the three-section `Buy now` input. -/
theorem claim_C3_witness :
    ("Buy now" ∈ buildRepetitionSet (groupContentByHeadings c3Blocks)) ∧
    blockScoreOf (buildRepetitionSet (groupContentByHeadings c3Blocks))
      (egPara "Buy now") = -1 :=
  ⟨((claim_C3 c3Blocks).1 "Buy now").mp (by decide),
   (claim_C3 c3Blocks).2 (egPara "Buy now") (by decide)⟩

lemma getDominantContext_eq_spec (blocks : List ContentBlock) :
    getDominantContext blocks = specDominant blocks := by
  unfold getDominantContext specDominant
  simp only [Bool.and_eq_true, decide_eq_true_eq, ge_iff_le]
  split_ifs with h1 h2 h3 h4 <;> first | rfl | omega

lemma foldl_add_map_sum (f : ContentBlock → ℚ) (l : List ContentBlock) :
    ∀ a : ℚ, l.foldl (fun s b => s + f b) a = a + (l.map f).sum := by
  induction l with
  | nil => intro a; simp
  | cons x xs ih => intro a; simp [ih, add_assoc]

lemma ratio_gt_iff (z l : Nat) (hzl : z ≤ l) :
    ((z : ℚ) / (l : ℚ) > (0.6 : ℚ)) ↔ 5 * z > 3 * l := by
  rcases Nat.eq_zero_or_pos l with h | h
  · subst h
    have hz : z = 0 := Nat.le_zero.mp hzl
    subst hz
    norm_num
  · have hl : (0 : ℚ) < (l : ℚ) := by exact_mod_cast h
    rw [gt_iff_lt, show (0.6 : ℚ) = 3 / 5 by norm_num, div_lt_div_iff₀ (by norm_num) hl]
    constructor
    · intro hlt
      have h2 : (3 : ℚ) * l < 5 * z := by linarith
      exact_mod_cast h2
    · intro hlt
      have h2 : (3 : ℚ) * l < 5 * z := by exact_mod_cast hlt
      linarith

/-- Claim C4: the group score is the block-score sum, plus the
dominant-context bonus (+2 main, +1.5 article, +0 body; ties broken in the
preference order main > article > body, an empty group counting as main),
plus +2 for a heading of 3–10 words, halved when strictly more than 60 %
of the blocks scored zero or less. -/
theorem claim_C4 (group : ContentGroup) (repetitionSet : List String) :
    scoreContentGroup group repetitionSet = specGroupScore group repetitionSet ∧
    getDominantContext [] = .main := by
  constructor
  · unfold scoreContentGroup specGroupScore
    rw [foldl_add_map_sum, getDominantContext_eq_spec]
    have hzl : (group.blocks.filter fun b => blockScoreOf repetitionSet b ≤ 0).length ≤
        group.blocks.length := List.length_filter_le _ _
    have hcond : (group.blocks.length > 0 ∧
        (((group.blocks.filter fun b => blockScoreOf repetitionSet b ≤ 0).length : ℚ) /
          (group.blocks.length : ℚ) > (0.6 : ℚ))) ↔
        5 * (group.blocks.filter fun b => blockScoreOf repetitionSet b ≤ 0).length >
          3 * group.blocks.length := by
      rw [ratio_gt_iff _ _ hzl]
      constructor
      · exact fun h => h.2
      · intro h
        refine ⟨?_, h⟩
        omega
    rw [if_congr hcond rfl rfl]
    cases hd : specDominant group.blocks <;>
      cases hh : group.heading <;>
      simp only [zero_add] <;>
      split_ifs <;> ring
  · rfl

lemma pushIfLive_append (groups : List ContentGroup) (c : ContentGroup) :
    pushIfLive groups c = groups ++ pushIfLive [] c := by
  unfold pushIfLive
  split <;> simp

lemma partitionLoop_eq_partFrom (bs : List ContentBlock) :
    ∀ (cur : ContentGroup) (groups : List ContentGroup),
      partitionLoop bs cur groups = groups ++ partFrom cur bs := by
  induction bs with
  | nil =>
    intro cur groups
    rw [partitionLoop, pushIfLive_append]
    unfold partFrom
    rw [List.takeWhile_nil, List.dropWhile_nil, specTailSections]
    simp
  | cons b rest ih =>
    intro cur groups
    by_cases hb : b.type = .heading
    · rw [partitionLoop, if_pos hb, ih, pushIfLive_append]
      have hnh : notHeadingBlock b = false := by
        simp [notHeadingBlock, hb]
      have h1 : partFrom cur (b :: rest) =
          pushIfLive [] cur ++ specTailSections (b :: rest) := by
        unfold partFrom
        rw [List.takeWhile_cons_of_neg (by simp [hnh]),
            List.dropWhile_cons_of_neg (by simp [hnh])]
        simp
      have h2 : partFrom ⟨some ⟨b.text, b.level.getD 2⟩, [], 0, false⟩ rest =
          specTailSections (b :: rest) := by
        unfold partFrom
        rw [specTailSections]
        simp [pushIfLive]
      rw [h1, h2, List.append_assoc]
    · rw [partitionLoop, if_neg hb, ih]
      have hnh : notHeadingBlock b = true := by
        simp [notHeadingBlock, hb]
      have h1 : partFrom cur (b :: rest) =
          partFrom { cur with blocks := cur.blocks ++ [b] } rest := by
        unfold partFrom
        rw [List.takeWhile_cons_of_pos (by simp [hnh]),
            List.dropWhile_cons_of_pos (by simp [hnh])]
        simp [pushIfLive]
      rw [h1]

/-- Claim C5: heading-based partitioning equals the specification-side
partition (a new section at every heading, the heading attached as the
section's heading, a non-empty leading headingless section, empty sections
for back-to-back headings), and no section ever holds a heading block among
its blocks. -/
theorem claim_C5 (blocks : List ContentBlock) :
    partitionLoop blocks ⟨none, [], 0, false⟩ [] = specSections blocks ∧
    (∀ g ∈ specSections blocks, ∀ b ∈ g.blocks, b.type ≠ .heading) := by
  constructor
  · rw [partitionLoop_eq_partFrom]
    unfold partFrom specSections
    simp only [List.nil_append]
    congr 1
    rcases h : blocks.takeWhile notHeadingBlock with _ | ⟨x, xs⟩
    · simp [pushIfLive, h]
    · simp [pushIfLive, h]
  · have hnot : ∀ (b : ContentBlock), notHeadingBlock b = true → b.type ≠ .heading := by
      intro b hb
      simpa [notHeadingBlock] using hb
    have key : ∀ (l : List ContentBlock), ∀ g ∈ specTailSections l, ∀ b ∈ g.blocks,
        b.type ≠ .heading := by
      intro l
      induction l using specTailSections.induct with
      | case1 =>
        rw [specTailSections]
        simp
      | case2 h tl ih =>
        intro g hg b hb
        rw [specTailSections] at hg
        rcases List.mem_cons.mp hg with hg | hg
        · subst hg
          exact hnot b (List.mem_takeWhile_imp hb)
        · exact ih g hg b hb
    intro g hg b hb
    unfold specSections at hg
    rcases List.mem_append.mp hg with hg | hg
    · rcases hlead : blocks.takeWhile notHeadingBlock with _ | ⟨x, xs⟩
      · rw [hlead] at hg
        simp at hg
      · rw [hlead] at hg
        simp only [if_neg (by simp : ¬(x :: xs = []))] at hg
        rcases List.mem_singleton.mp hg with rfl
        rw [← hlead] at hb
        exact hnot b (List.mem_takeWhile_imp hb)
    · exact key _ g hg b hb

/-- Witness for claim C5 at the three-section input. -/
theorem claim_C5_witness :
    partitionLoop c3Blocks ⟨none, [], 0, false⟩ [] = specSections c3Blocks ∧
    egTenWords.type ≠ .heading :=
  ⟨(claim_C5 c3Blocks).1,
   (claim_C5 c3Blocks).2 ⟨some ⟨"A", 2⟩, [egTenWords, egPara "Buy now"], 0, false⟩
     ((claim_C5 c3Blocks).1 ▸
       (by decide :
         (⟨some ⟨"A", 2⟩, [egTenWords, egPara "Buy now"], 0, false⟩ : ContentGroup) ∈
           partitionLoop c3Blocks ⟨none, [], 0, false⟩ []))
     egTenWords (by decide)⟩


/-! ### The extractor walk invariant -/

lemma intercalate_go_len (s : String) : ∀ (as : List String) (acc : String),
    acc.length ≤ (String.intercalate.go acc s as).length := by
  intro as
  induction as with
  | nil => intro acc; rw [String.intercalate.go]
  | cons x xs ih =>
    intro acc
    rw [String.intercalate.go]
    calc acc.length ≤ (acc ++ s ++ x).length := by
          simp [String.length_append]
          omega
      _ ≤ _ := ih (acc ++ s ++ x)

lemma intercalate_cons_ne_empty (s a : String) (as : List String) (ha : a ≠ "") :
    String.intercalate s (a :: as) ≠ "" := by
  intro h
  have h' : String.intercalate.go a s as = "" := h
  have h1 := intercalate_go_len s as a
  rw [h'] at h1
  have hz : ("" : String).length = 0 := rfl
  have hlen : a.length = 0 := by omega
  apply ha
  have hd : a.data.length = 0 := hlen
  have : a.data = [] := List.length_eq_zero.mp hd
  cases a
  simp_all

/-- Goodness of one definition pair. -/
lemma dlFlush_good (o : Option (String × List String))
    (ho : ∀ t ds, o = some (t, ds) → ∀ d ∈ ds, d ≠ "") :
    ∀ p ∈ dlStep.dlFlush o, (p.1 ≠ "" && !isNoiseText p.1 && p.2 ≠ "") = true := by
  match o with
  | none => intro p hp; simp [dlStep.dlFlush] at hp
  | some (term, descs) =>
    intro p hp
    rw [dlStep.dlFlush] at hp
    split at hp
    · rename_i hguard
      rcases List.mem_singleton.mp hp with rfl
      simp only [Bool.and_eq_true, bne_iff_ne, ne_eq, decide_eq_true_eq,
        Bool.not_eq_true'] at hguard ⊢
      obtain ⟨⟨ht, hlen⟩, hnn⟩ := hguard
      refine ⟨⟨ht, hnn⟩, ?_⟩
      rcases descs with _ | ⟨d, ds⟩
      · simp at hlen
      · exact intercalate_cons_ne_empty " " d ds (ho term (d :: ds) rfl d (by simp))
    · simp at hp

lemma dlStep_inv (st : List (String × String) × Option (String × List String))
    (el : Node) (h : dlInv st) : dlInv (dlStep st el) := by
  obtain ⟨h1, h2⟩ := h
  rw [dlStep]
  split
  · refine ⟨?_, ?_⟩
    · intro p hp
      rcases List.mem_append.mp hp with hp | hp
      · exact h1 p hp
      · exact dlFlush_good st.2 h2 p hp
    · intro t ds hds d hd
      simp only [Option.some.injEq, Prod.mk.injEq] at hds
      rw [← hds.2] at hd
      simp at hd
  · split
    · split
      · rename_i t0 ds0 heq
        refine ⟨h1, ?_⟩
        intro t ds hds d hd
        simp only [Option.some.injEq, Prod.mk.injEq] at hds
        rw [← hds.2] at hd
        split at hd
        · rename_i hdesc
          rcases List.mem_append.mp hd with hd | hd
          · exact h2 t0 ds0 heq d hd
          · rcases List.mem_singleton.mp hd with rfl
            simpa using hdesc
        · exact h2 t0 ds0 heq d hd
      · exact ⟨h1, by intro t ds hds; simp at hds⟩
    · refine ⟨?_, by intro t ds hds; simp at hds⟩
      intro p hp
      rcases List.mem_append.mp hp with hp | hp
      · exact h1 p hp
      · exact dlFlush_good st.2 h2 p hp

lemma dlPairs_ok (children : List Node) :
    ∀ p ∈ dlPairs children, (p.1 ≠ "" && !isNoiseText p.1 && p.2 ≠ "") = true := by
  have hfold : ∀ (cs : List Node) (st), dlInv st → dlInv (cs.foldl dlStep st) := by
    intro cs
    induction cs with
    | nil => intro st h; exact h
    | cons c r ih => intro st h; exact ih _ (dlStep_inv st c h)
  have hinv : dlInv (children.foldl dlStep ([], none)) :=
    hfold children ([], none) ⟨by simp, by intro t ds h; simp at h⟩
  intro p hp
  rw [dlPairs] at hp
  rcases List.mem_append.mp hp with hp | hp
  · exact hinv.1 p hp
  · exact dlFlush_good _ hinv.2 p hp

/-- Every block out of the table handler is a good table block. -/
lemma tableBlockOf_ok (child : Node) (ctx : SourceCtx) :
    ∀ b ∈ tableBlockOf child ctx, goodBlock b = true ∧ b.type = .table := by
  intro b hb
  rw [tableBlockOf] at hb
  split at hb
  · rename_i hrows
    rcases List.mem_singleton.mp hb with rfl
    refine ⟨?_, rfl⟩
    rw [goodBlock]
    simp only [Bool.and_eq_true, decide_eq_true_eq]
    refine ⟨hrows, ?_⟩
    rw [List.all_eq_true]
    intro r hr
    rcases List.mem_filterMap.mp hr with ⟨tr, _, hf⟩
    split at hf
    · simp at hf
    · split at hf
      · simp at hf
      · rename_i hnall
        simp only [Option.some.injEq] at hf
        rw [← hf]
        simp only [Bool.not_eq_true']
        exact eq_false_of_ne_true hnall
  · simp at hb

lemma ecbHeadingBlock_inv (child : Node) (kh : List String) (c : SourceCtx) :
    ∀ b ∈ ecbHeadingBlock child kh c, walkOk kh b = true := by
  intro b hb
  rw [ecbHeadingBlock] at hb
  split at hb
  · rename_i hg
    rcases List.mem_singleton.mp hb with rfl
    simp only [Bool.and_eq_true, Bool.not_eq_true', decide_eq_true_eq] at hg
    simp [walkOk, goodBlock]
    simpa using hg.2
  · simp at hb

lemma ecbParagraphBlock_inv (child : Node) (kh : List String) (c : SourceCtx) :
    ∀ b ∈ ecbParagraphBlock child c, walkOk kh b = true := by
  intro b hb
  rw [ecbParagraphBlock] at hb
  split at hb
  · rename_i hg
    rcases List.mem_singleton.mp hb with rfl
    simp only [Bool.and_eq_true, Bool.not_eq_true', decide_eq_true_eq] at hg
    simp [walkOk, goodBlock, hg.1]
  · simp at hb

lemma ecbListBlock_inv (child : Node) (kh : List String) (c : SourceCtx) :
    ∀ b ∈ ecbListBlock child c, walkOk kh b = true := by
  intro b hb
  rw [ecbListBlock] at hb
  split at hb
  · rename_i hg
    rcases List.mem_singleton.mp hb with rfl
    simp [walkOk, goodBlock]
    simpa using hg
  · simp at hb

lemma ecbDefinitionListBlock_inv (child : Node) (kh : List String) (c : SourceCtx) :
    ∀ b ∈ ecbDefinitionListBlock child c, walkOk kh b = true := by
  intro b hb
  rw [ecbDefinitionListBlock] at hb
  split at hb
  · rename_i hg
    rcases List.mem_singleton.mp hb with rfl
    simp [walkOk, goodBlock]
    refine ⟨by simpa using hg, ?_⟩
    intro a c hac
    have := dlPairs_ok child.children (a, c) hac
    simpa using this
  · simp at hb

lemma ecbBlockquoteBlock_inv (child : Node) (kh : List String) (c : SourceCtx) :
    ∀ b ∈ ecbBlockquoteBlock child c, walkOk kh b = true := by
  intro b hb
  rw [ecbBlockquoteBlock] at hb
  split at hb
  · rename_i hg
    rcases List.mem_singleton.mp hb with rfl
    simp [walkOk, goodBlock, hg]
  · simp at hb

lemma ecbPreBlock_inv (child : Node) (kh : List String) (c : SourceCtx) :
    ∀ b ∈ ecbPreBlock child c, walkOk kh b = true := by
  intro b hb
  rw [ecbPreBlock] at hb
  split at hb
  · rename_i hg
    rcases List.mem_singleton.mp hb with rfl
    simp [walkOk, goodBlock, hg]
  · simp at hb

lemma ecbFigureBlocks_inv (doc : Doc)
    (recur : List Node → List String → SourceCtx → List ContentBlock)
    (hrec : ∀ kids kh ctx, ∀ b ∈ recur kids kh ctx, walkOk kh b = true)
    (child : Node) (kh : List String) (c : SourceCtx) :
    ∀ b ∈ ecbFigureBlocks doc recur child kh c, walkOk kh b = true := by
  intro b hb
  rw [ecbFigureBlocks] at hb
  split at hb
  · clear hrec
    simp only [] at hb
    repeat' split at hb
    all_goals first
      | exact absurd hb (List.not_mem_nil b)
      | (rcases List.mem_singleton.mp hb with rfl
         simp_all [walkOk, goodBlock])
  · exact hrec _ _ _ b hb

lemma ecbPictureBlock_inv (doc : Doc) (child : Node) (kh : List String)
    (c : SourceCtx) :
    ∀ b ∈ ecbPictureBlock doc child c, walkOk kh b = true := by
  intro b hb
  rw [ecbPictureBlock] at hb
  split at hb
  · simp only [] at hb
    split at hb
    · rename_i hg
      rcases List.mem_singleton.mp hb with rfl
      simp [walkOk, goodBlock, hg]
    · simp at hb
  · simp at hb

lemma ecbImgBlock_inv (doc : Doc) (child : Node) (kh : List String)
    (c : SourceCtx) :
    ∀ b ∈ ecbImgBlock doc child c, walkOk kh b = true := by
  intro b hb
  rw [ecbImgBlock] at hb
  split at hb
  · rename_i hg
    rcases List.mem_singleton.mp hb with rfl
    simp [walkOk, goodBlock, hg]
  · simp at hb

lemma ecbAriaImgBlock_inv (child : Node) (kh : List String) (c : SourceCtx) :
    ∀ b ∈ ecbAriaImgBlock child c, walkOk kh b = true := by
  intro b hb
  rw [ecbAriaImgBlock] at hb
  split at hb
  · simp only [] at hb
    split at hb
    · rename_i hg
      rcases List.mem_singleton.mp hb with rfl
      simp [walkOk, goodBlock, hg]
    · simp at hb
  · simp at hb

lemma ecbIframeBlocks_inv
    (recur : List Node → List String → SourceCtx → List ContentBlock)
    (hrec : ∀ kids kh ctx, ∀ b ∈ recur kids kh ctx, walkOk kh b = true)
    (child : Node) (kh : List String) (c : SourceCtx) :
    ∀ b ∈ ecbIframeBlocks recur child kh c, walkOk kh b = true := by
  intro b hb
  rw [ecbIframeBlocks] at hb
  split at hb
  · exact hrec _ _ _ b hb
  · simp at hb

lemma ecbDetailsBlocks_inv
    (recur : List Node → List String → SourceCtx → List ContentBlock)
    (hrec : ∀ kids kh ctx, ∀ b ∈ recur kids kh ctx, walkOk kh b = true)
    (child : Node) (kh : List String) (c : SourceCtx) :
    ∀ b ∈ ecbDetailsBlocks recur child kh c, walkOk kh b = true := by
  intro b hb
  rw [ecbDetailsBlocks] at hb
  rcases List.mem_append.mp hb with hb | hb
  · split at hb
    · simp only [] at hb
      split at hb
      · rename_i hg
        rcases List.mem_singleton.mp hb with rfl
        simp only [Bool.and_eq_true, Bool.not_eq_true', decide_eq_true_eq] at hg
        simp [walkOk, goodBlock]
        simpa using hg.2
      · simp at hb
    · simp at hb
  · rcases List.mem_flatMap.mp hb with ⟨dc, _, hbc⟩
    exact hrec _ _ _ b hbc

lemma ecbFallbackBlocks_inv
    (recur : List Node → List String → SourceCtx → List ContentBlock)
    (hrec : ∀ kids kh ctx, ∀ b ∈ recur kids kh ctx, walkOk kh b = true)
    (child : Node) (kh : List String) (c : SourceCtx) :
    ∀ b ∈ ecbFallbackBlocks recur child kh c, walkOk kh b = true := by
  intro b hb
  rw [ecbFallbackBlocks] at hb
  split at hb
  · exact hrec _ _ _ b hb
  · split at hb
    · exact hrec _ _ _ b hb
    · simp only [] at hb
      split at hb
      · rename_i hg
        rcases List.mem_singleton.mp hb with rfl
        simp only [Bool.and_eq_true, Bool.not_eq_true', decide_eq_true_eq] at hg
        simp [walkOk, goodBlock, hg.1]
      · simp at hb

lemma ecbChild_inv (doc : Doc)
    (recur : List Node → List String → SourceCtx → List ContentBlock)
    (hrec : ∀ kids kh ctx, ∀ b ∈ recur kids kh ctx, walkOk kh b = true)
    (child : Node) (kh : List String) (ctx : SourceCtx) :
    ∀ b ∈ ecbChild doc recur child kh ctx, walkOk kh b = true := by
  intro b hb
  rw [ecbChild] at hb
  by_cases h1 : (!isVisible child) = true
  · rw [if_pos h1] at hb
    simp at hb
  rw [if_neg h1] at hb
  by_cases h2 : isPresentational child = true
  · rw [if_pos h2] at hb
    simp at hb
  rw [if_neg h2] at hb
  by_cases h3 : isNoisyElement child = true
  · rw [if_pos h3] at hb
    simp at hb
  rw [if_neg h3] at hb
  by_cases h4 : isLiveRegion child = true
  · rw [if_pos h4] at hb
    simp at hb
  rw [if_neg h4] at hb
  by_cases h5 : isHeadingTagStr child.tagName = true
  · rw [if_pos h5] at hb
    exact ecbHeadingBlock_inv child kh _ b hb
  rw [if_neg h5] at hb
  by_cases h6 : child.tagName = "p"
  · rw [if_pos h6] at hb
    exact ecbParagraphBlock_inv child kh _ b hb
  rw [if_neg h6] at hb
  by_cases h7 : (child.tagName = "ul" || child.tagName = "ol") = true
  · rw [if_pos h7] at hb
    exact ecbListBlock_inv child kh _ b hb
  rw [if_neg h7] at hb
  by_cases h8 : child.tagName = "dl"
  · rw [if_pos h8] at hb
    exact ecbDefinitionListBlock_inv child kh _ b hb
  rw [if_neg h8] at hb
  by_cases h9 : child.tagName = "blockquote"
  · rw [if_pos h9] at hb
    exact ecbBlockquoteBlock_inv child kh _ b hb
  rw [if_neg h9] at hb
  by_cases h10 : child.tagName = "pre"
  · rw [if_pos h10] at hb
    exact ecbPreBlock_inv child kh _ b hb
  rw [if_neg h10] at hb
  by_cases h11 : child.tagName = "table"
  · rw [if_pos h11] at hb
    obtain ⟨hg, htp⟩ := tableBlockOf_ok child _ b hb
    simp [walkOk, hg, htp]
  rw [if_neg h11] at hb
  by_cases h12 : child.tagName = "figure"
  · rw [if_pos h12] at hb
    exact ecbFigureBlocks_inv doc recur hrec child kh _ b hb
  rw [if_neg h12] at hb
  by_cases h13 : child.tagName = "picture"
  · rw [if_pos h13] at hb
    exact ecbPictureBlock_inv doc child kh _ b hb
  rw [if_neg h13] at hb
  by_cases h14 : child.tagName = "img"
  · rw [if_pos h14] at hb
    exact ecbImgBlock_inv doc child kh _ b hb
  rw [if_neg h14] at hb
  by_cases h15 : child.getAttribute "role" = some "img"
  · rw [if_pos h15] at hb
    exact ecbAriaImgBlock_inv child kh _ b hb
  rw [if_neg h15] at hb
  by_cases h16 : child.tagName = "iframe"
  · rw [if_pos h16] at hb
    exact ecbIframeBlocks_inv recur hrec child kh _ b hb
  rw [if_neg h16] at hb
  by_cases h17 : child.tagName = "details"
  · rw [if_pos h17] at hb
    exact ecbDetailsBlocks_inv recur hrec child kh _ b hb
  rw [if_neg h17] at hb
  by_cases h18 : SKIP_TAGS.contains child.tagName = true
  · rw [if_pos h18] at hb
    simp at hb
  rw [if_neg h18] at hb
  exact ecbFallbackBlocks_inv recur hrec child kh _ b hb

lemma extractBlocksList_inv (doc : Doc) :
    ∀ (fuel : Nat) (kids : List Node) (kh : List String) (ctx : SourceCtx),
      ∀ b ∈ extractBlocksList doc fuel kids kh ctx, walkOk kh b = true := by
  intro fuel
  induction fuel with
  | zero =>
    intro kids kh ctx b hb
    rw [extractBlocksList] at hb
    simp at hb
  | succ n ih =>
    intro kids kh ctx b hb
    rw [extractBlocksList] at hb
    rcases List.mem_flatMap.mp hb with ⟨child, _, hbc⟩
    exact ecbChild_inv doc _ (fun kids kh ctx b hb => ih kids kh ctx b hb)
      child kh ctx b hbc

lemma walkOk_good (kh : List String) (b : ContentBlock)
    (h : walkOk kh b = true) : goodBlock b = true := by
  unfold walkOk at h
  simp only [Bool.and_eq_true] at h
  exact h.1.1

lemma walkOk_heading_not_known (kh : List String) (b : ContentBlock)
    (h : walkOk kh b = true) :
    (b.type != .heading || !kh.contains b.text) = true := by
  unfold walkOk at h
  simp only [Bool.and_eq_true] at h
  exact h.1.2

lemma walkOk_list_empty_text (kh : List String) (b : ContentBlock)
    (h : walkOk kh b = true) : (b.type != .list || b.text == "") = true := by
  unfold walkOk at h
  simp only [Bool.and_eq_true] at h
  exact h.2

lemma extractContentBlocks_inv (doc : Doc) (root : Node) (kh : List String)
    (ctx : SourceCtx) (depth : Nat) :
    ∀ b ∈ extractContentBlocks doc root kh ctx depth, walkOk kh b = true := by
  intro b hb
  rw [extractContentBlocks] at hb
  exact extractBlocksList_inv doc _ _ kh ctx b hb

lemma extractMainContent_inv (doc : Doc) (kh : List String) :
    ∀ b ∈ extractMainContent doc kh, walkOk kh b = true := by
  intro b hb
  rw [extractMainContent] at hb
  split at hb
  · exact extractContentBlocks_inv doc _ kh _ 0 b hb
  · split at hb
    · exact extractContentBlocks_inv doc _ kh _ 0 b hb
    · simp at hb

lemma pageMainContent_inv (doc : Doc) :
    ∀ b ∈ pageMainContent doc, walkOk (pageKnownHeadings doc) b = true := by
  intro b hb
  rw [pageMainContent] at hb
  exact extractMainContent_inv doc _ b hb

/-! ### Reachable headings are harvested -/

mutual

lemma reach_node_sub (sel : Node → Bool) :
    ∀ (n el : Node), el ∈ reachNoFrameNode n → sel el = true →
      el ∈ (subtreeElems n).filter sel ∨ el ∈ shadowMatches sel n
  | .textNode s, el, h, _ => by
    rw [reachNoFrameNode.eq_def] at h
    exact absurd h (List.not_mem_nil el)
  | .element t a sd sv so z cs sh f, el, h, hsel => by
    rw [reachNoFrameNode.eq_def] at h
    dsimp only [] at h
    rw [subtreeElems.eq_def, shadowMatches.eq_def]
    dsimp only []
    rcases List.mem_cons.mp h with rfl | h2
    · left
      exact List.mem_filter.mpr ⟨List.mem_cons_self _ _, hsel⟩
    · rcases List.mem_append.mp h2 with h3 | h3
      · rcases reach_list_sub sel cs el h3 hsel with h4 | h4
        · left
          rcases List.mem_filter.mp h4 with ⟨hm, hs⟩
          exact List.mem_filter.mpr ⟨List.mem_cons_of_mem _ hm, hs⟩
        · right
          exact List.mem_append.mpr (Or.inr h4)
      · right
        refine List.mem_append.mpr (Or.inl ?_)
        cases sh with
        | none => exact absurd h3 (List.not_mem_nil el)
        | some shk =>
          rcases reach_list_sub sel shk el h3 hsel with h4 | h4
          · exact List.mem_append.mpr (Or.inl h4)
          · exact List.mem_append.mpr (Or.inr h4)
termination_by n => sizeOf n

lemma reach_list_sub (sel : Node → Bool) :
    ∀ (ns : List Node) (el : Node), el ∈ reachNoFrameList ns → sel el = true →
      el ∈ (subtreeElemsList ns).filter sel ∨ el ∈ shadowMatchesList sel ns
  | [], el, h, _ => by
    rw [reachNoFrameList.eq_def] at h
    exact absurd h (List.not_mem_nil el)
  | n :: rest, el, h, hsel => by
    rw [reachNoFrameList.eq_def] at h
    dsimp only [] at h
    rw [shadowMatchesList.eq_def]
    dsimp only []
    rcases List.mem_append.mp h with h2 | h2
    · rcases reach_node_sub sel n el h2 hsel with h3 | h3
      · left
        rw [subtreeElemsList, List.filter_append]
        exact List.mem_append.mpr (Or.inl h3)
      · right
        exact List.mem_append.mpr (Or.inl h3)
    · rcases reach_list_sub sel rest el h2 hsel with h3 | h3
      · left
        rw [subtreeElemsList, List.filter_append]
        exact List.mem_append.mpr (Or.inr h3)
      · right
        exact List.mem_append.mpr (Or.inr h3)
termination_by ns => sizeOf ns

end

lemma reach_mem_deepQuery (doc : Doc) (sel : Node → Bool) (el : Node)
    (hmem : el ∈ docReachableNoFrames doc) (hsel : sel el = true) :
    el ∈ docDeepQueryAll doc sel := by
  rw [docDeepQueryAll, deepQueryAll]
  rcases reach_node_sub sel doc.root el hmem hsel with h | h
  · refine List.mem_append.mpr (Or.inl ?_)
    rw [subtreeElemsList, subtreeElemsList, List.append_nil]
    exact h
  · refine List.mem_append.mpr (Or.inr ?_)
    rw [shadowMatchesList, shadowMatchesList, List.append_nil]
    exact h

lemma heading_text_known (doc : Doc) (el : Node)
    (hr : el ∈ docReachableNoFrames doc)
    (hh : isHeadingTagStr el.tagName = true) (hv : isVisible el = true)
    (ht : extractText el ≠ "") :
    (pageKnownHeadings doc).contains (extractText el) = true := by
  have hq := reach_mem_deepQuery doc (fun n => isHeadingTagStr n.tagName) el hr hh
  apply List.elem_iff.mpr
  rw [pageKnownHeadings, extractHeadings]
  refine List.mem_map.mpr ⟨⟨headingLevelOf el.tagName, extractText el,
    match el.getAttribute "id" with
    | some i => if i = "" then none else some i
    | none => none⟩, List.mem_filterMap.mpr ⟨el, hq, ?_⟩, rfl⟩
  simp [hv, ht]

/-! ### Flat-block preservation of the grouper -/

lemma splitLoop_flat (bs : List ContentBlock) :
    ∀ (cur : List ContentBlock) (run : Nat) (res : List ContentGroup),
      (splitLoop bs cur run res).flatMap (·.blocks) =
        res.flatMap (·.blocks) ++ cur ++ bs := by
  induction bs with
  | nil =>
    intro cur run res
    rw [splitLoop]
    split
    · simp
    · have : cur = [] := by
        rcases cur with _ | _
        · rfl
        · simp at *
      simp [this]
  | cons b rest ih =>
    intro cur run res
    rw [splitLoop]
    split
    · by_cases h3 : run + 1 ≥ 3
      · rw [if_pos h3, ih]
        simp
      · rw [if_neg h3, ih]
        simp
    · rw [if_neg (by omega : ¬ ((0 : Nat) ≥ 3)), ih]
      simp

lemma filter_takeWhile_dropWhile (p : ContentBlock → Bool) (l : List ContentBlock) :
    l.filter p = l.takeWhile p ++ (l.dropWhile p).filter p := by
  conv_lhs => rw [← List.takeWhile_append_dropWhile p l]
  rw [List.filter_append, List.filter_eq_self.mpr]
  intro a ha
  exact List.mem_takeWhile_imp ha

lemma filter_dropWhile_tail (p : ContentBlock → Bool) (l : List ContentBlock) :
    (l.dropWhile p).filter p = (l.dropWhile p).tail.filter p := by
  induction l with
  | nil => simp
  | cons a l ih =>
    by_cases hp : p a
    · rw [List.dropWhile_cons_of_pos hp]
      exact ih
    · rw [List.dropWhile_cons_of_neg hp]
      simp [List.filter_cons, hp]

lemma flat_specTailSections :
    ∀ l : List ContentBlock,
      groupsBlocksFlat (specTailSections l) = l.tail.filter notHeadingBlock := by
  intro l
  induction l using specTailSections.induct with
  | case1 =>
    rw [specTailSections]
    simp [groupsBlocksFlat]
  | case2 h tl ih =>
    rw [specTailSections]
    simp only [groupsBlocksFlat, List.flatMap_cons] at ih ⊢
    rw [ih, List.tail_cons]
    rw [filter_takeWhile_dropWhile notHeadingBlock tl, filter_dropWhile_tail]

lemma flat_pushIfLive (c : ContentGroup) :
    groupsBlocksFlat (pushIfLive [] c) = c.blocks := by
  rw [pushIfLive]
  split
  · simp [groupsBlocksFlat]
  · rename_i hcond
    simp only [Bool.or_eq_true, decide_eq_true_eq, not_or] at hcond
    have : c.blocks = [] := by
      have := hcond.1
      rcases hb : c.blocks with _ | _
      · rfl
      · rw [hb] at this
        simp at this
    simp [groupsBlocksFlat, this]

lemma flat_partition (blocks : List ContentBlock) :
    groupsBlocksFlat (partitionLoop blocks ⟨none, [], 0, false⟩ []) =
      blocks.filter notHeadingBlock := by
  rw [partitionLoop_eq_partFrom]
  rw [partFrom]
  simp only [List.nil_append, groupsBlocksFlat, List.flatMap_append]
  have h1 := flat_pushIfLive
    { heading := none, blocks := blocks.takeWhile notHeadingBlock, score := 0,
      collapsed := false }
  simp only [groupsBlocksFlat] at h1
  rw [h1]
  have h2 := flat_specTailSections (blocks.dropWhile notHeadingBlock)
  simp only [groupsBlocksFlat] at h2
  rw [h2, ← filter_dropWhile_tail, ← filter_takeWhile_dropWhile]

lemma flat_split (g : ContentGroup) :
    groupsBlocksFlat (splitLargeHeadinglessGroup g) = g.blocks := by
  rw [splitLargeHeadinglessGroup]
  split
  · simp [groupsBlocksFlat]
  · have := splitLoop_flat g.blocks [] 0 []
    simpa [groupsBlocksFlat] using this

lemma flat_groupContentByHeadings (blocks : List ContentBlock) :
    groupsBlocksFlat (groupContentByHeadings blocks) =
      blocks.filter notHeadingBlock := by
  have hflat := flat_partition blocks
  rw [groupContentByHeadings]
  rcases hp : partitionLoop blocks ⟨none, [], 0, false⟩ [] with _ | ⟨g, _ | ⟨g2, gs⟩⟩
  · rw [hp] at hflat
    exact hflat
  · rw [hp] at hflat
    dsimp only []
    split
    · rw [flat_split]
      simpa [groupsBlocksFlat] using hflat
    · exact hflat
  · rw [hp] at hflat
    exact hflat

lemma allGroupBlockTexts_eq (gs : List ContentGroup) :
    allGroupBlockTexts gs = (groupsBlocksFlat gs).map (·.text) := by
  rw [allGroupBlockTexts, groupsBlocksFlat]
  induction gs with
  | nil => simp
  | cons g r ih => simp [ih]

lemma count_empty_text (blocks : List ContentBlock)
    (h : 3 ≤ (blocks.filter fun b => b.type == .list && b.text == "").length) :
    3 ≤ (allGroupBlockTexts (groupContentByHeadings blocks)).count "" := by
  rw [allGroupBlockTexts_eq, flat_groupContentByHeadings]
  rw [List.count_eq_countP, List.countP_map, List.countP_filter]
  refine le_trans h ?_
  rw [← List.countP_eq_length_filter]
  refine List.countP_mono_left ?_
  intro b _ hb
  simp only [Bool.and_eq_true, beq_iff_eq] at hb
  simp only [Function.comp_apply, Bool.and_eq_true, beq_iff_eq]
  exact ⟨hb.2, by simp [notHeadingBlock, hb.1]⟩

/-! ### The secondary splitter -/

lemma splitLoop_collapsed_ends_run (bs : List ContentBlock) :
    ∀ (cur : List ContentBlock) (run : Nat) (res : List ContentGroup),
      run ≤ 2 → run ≤ cur.length →
      ((cur.reverse.take run).all isProductLike = true) →
      (∀ c ∈ res, c.collapsed = true → endsWithProductRun c.blocks = true) →
      ∀ c ∈ splitLoop bs cur run res, c.collapsed = true →
        endsWithProductRun c.blocks = true := by
  induction bs with
  | nil =>
    intro cur run res _ _ _ hres c hc
    rw [splitLoop] at hc
    split at hc
    · rcases List.mem_append.mp hc with h | h
      · exact hres c h
      · rcases List.mem_singleton.mp h with rfl
        intro hcol
        simp at hcol
    · exact hres c hc
  | cons b rest ih =>
    intro cur run res hrun hlen hall hres c hc
    rw [splitLoop] at hc
    split at hc
    · rename_i hpl
      by_cases h3 : run + 1 ≥ 3
      · rw [if_pos h3] at hc
        have hrun2 : run = 2 := by omega
        refine ih [] 0 _ (by omega) (by simp) (by simp) ?_ c hc
        intro c2 hc2
        rcases List.mem_append.mp hc2 with h | h
        · exact hres c2 h
        · rcases List.mem_singleton.mp h with rfl
          intro _
          unfold endsWithProductRun
          have hrev : (cur ++ [b]).reverse.take 3 = b :: cur.reverse.take 2 := by
            rw [List.reverse_append]
            simp
          simp only [List.length_append, hrev]
          rw [hrun2] at hall
          refine Bool.and_eq_true_iff.mpr ⟨?_, ?_⟩
          · simp only [decide_eq_true_eq, List.length_singleton]
            omega
          · simp [List.all_cons, hpl, hall]
      · rw [if_neg h3] at hc
        refine ih (cur ++ [b]) (run + 1) res (by omega) ?_ ?_ hres c hc
        · simp only [List.length_append, List.length_singleton]
          omega
        · rw [List.reverse_append]
          simp only [List.reverse_singleton, List.singleton_append, List.take_succ_cons,
            List.all_cons, hpl, Bool.true_and]
          exact hall
    · rename_i hnpl
      rw [if_neg (by omega : ¬ ((0 : Nat) ≥ 3))] at hc
      exact ih (cur ++ [b]) 0 res (by omega) (by simp) (by simp) hres c hc

lemma splitLoop_dropLast_collapsed (bs : List ContentBlock) :
    ∀ (cur : List ContentBlock) (run : Nat) (res : List ContentGroup),
      (∀ c ∈ res, c.collapsed = true) →
      ∀ c ∈ (splitLoop bs cur run res).dropLast, c.collapsed = true := by
  induction bs with
  | nil =>
    intro cur run res hres c hc
    rw [splitLoop] at hc
    split at hc
    · rw [List.dropLast_concat] at hc
      exact hres c hc
    · exact hres c ((List.dropLast_sublist res).subset hc)
  | cons b rest ih =>
    intro cur run res hres c hc
    rw [splitLoop] at hc
    split at hc
    · by_cases h3 : run + 1 ≥ 3
      · rw [if_pos h3] at hc
        refine ih [] 0 _ ?_ c hc
        intro c2 hc2
        rcases List.mem_append.mp hc2 with h | h
        · exact hres c2 h
        · rcases List.mem_singleton.mp h with rfl
          rfl
      · rw [if_neg h3] at hc
        exact ih _ _ res hres c hc
    · rw [if_neg (by omega : ¬ ((0 : Nat) ≥ 3))] at hc
      exact ih _ _ res hres c hc


/-! ### Form deduplication -/

lemma dedupFirstGo_not_seen :
    ∀ (l seen : List String), ∀ a ∈ dedupFirstGo seen l,
      seen.contains a = false := by
  intro l
  induction l with
  | nil =>
    intro seen a ha
    rw [dedupFirstGo] at ha
    simp at ha
  | cons x r ih =>
    intro seen a ha
    rw [dedupFirstGo] at ha
    split at ha
    · exact ih seen a ha
    · rename_i hx
      rcases List.mem_cons.mp ha with rfl | h2
      · exact eq_false_of_ne_true hx
      · have hsub := ih (seen ++ [x]) a h2
        by_cases hs : seen.contains a = true
        · exfalso
          have hm : a ∈ seen ++ [x] :=
            List.mem_append.mpr (Or.inl (List.elem_iff.mp hs))
          have hc2 : (seen ++ [x]).contains a = true := List.elem_iff.mpr hm
          rw [hsub] at hc2
          exact Bool.false_ne_true hc2
        · exact eq_false_of_ne_true hs

lemma dedupFirstGo_nodup : ∀ (l seen : List String), (dedupFirstGo seen l).Nodup := by
  intro l
  induction l with
  | nil =>
    intro seen
    rw [dedupFirstGo]
    exact List.nodup_nil
  | cons x r ih =>
    intro seen
    rw [dedupFirstGo]
    split
    · exact ih seen
    · refine List.nodup_cons.mpr ⟨?_, ih (seen ++ [x])⟩
      intro hmem
      have hns := dedupFirstGo_not_seen r (seen ++ [x]) x hmem
      have hm : x ∈ seen ++ [x] := List.mem_append.mpr (Or.inr (by simp))
      have hc2 : (seen ++ [x]).contains x = true := List.elem_iff.mpr hm
      rw [hns] at hc2
      exact Bool.false_ne_true hc2

lemma extractFormsGo_actions (doc : Doc) :
    ∀ (fs : List Node) (seen : List String) (forms : List FormSnapshot),
      (∀ f ∈ fs, isVisible f = true → formResolvedAction doc f ≠ "") →
      (extractFormsGo doc fs seen forms).map (·.action) =
        forms.map (·.action) ++
          dedupFirstGo seen ((fs.filter isVisible).map (formResolvedAction doc)) := by
  intro fs
  induction fs with
  | nil =>
    intro seen forms _
    rw [extractFormsGo]
    simp [dedupFirstGo]
  | cons form rest ih =>
    intro seen forms hne
    rw [extractFormsGo]
    dsimp only []
    split
    · rename_i hinv
      have hv : isVisible form = false := by simpa using hinv
      rw [ih _ _ (fun f hf hvf => hne f (List.mem_cons_of_mem _ hf) hvf)]
      rw [List.filter_cons_of_neg (by simp [hv])]
    · rename_i hvis
      have hv : isVisible form = true := by simpa using hvis
      have hact : formResolvedAction doc form ≠ "" :=
        hne form (List.mem_cons_self _ _) hv
      rw [List.filter_cons_of_pos (by simp [hv]), List.map_cons, dedupFirstGo]
      by_cases hc : seen.contains (formResolvedAction doc form) = true
      · have hcond : (decide (formResolvedAction doc form ≠ "") &&
            seen.contains (formResolvedAction doc form)) = true := by
          simp only [Bool.and_eq_true]
          exact ⟨decide_eq_true hact, hc⟩
        rw [if_pos hcond,
            ih _ _ (fun f hf hvf => hne f (List.mem_cons_of_mem _ hf) hvf),
            if_pos hc]
      · have hcond : ¬ ((decide (formResolvedAction doc form ≠ "") &&
            seen.contains (formResolvedAction doc form)) = true) := by
          simp only [Bool.and_eq_true]
          intro hcontr
          exact hc hcontr.2
        rw [if_neg hcond, if_pos hact,
            ih _ _ (fun f hf hvf => hne f (List.mem_cons_of_mem _ hf) hvf),
            if_neg hc]
        simp

/-- Claim C7. -/
theorem claim_C7 (doc : Doc) (root : Node) (kh : List String)
    (ctx : SourceCtx) (depth : Nat) :
    (extractContentBlocks doc root kh ctx depth).all goodBlock = true ∧
    (pageMainContent doc).all goodBlock = true := by
  constructor
  · rw [List.all_eq_true]
    intro b hb
    exact walkOk_good kh b (extractContentBlocks_inv doc root kh ctx depth b hb)
  · rw [List.all_eq_true]
    intro b hb
    exact walkOk_good _ b (pageMainContent_inv doc b hb)

/-- Claim C9. -/
theorem claim_C9 (doc : Doc) :
    ((docReachableNoFrames doc).filter fun el =>
        isHeadingTagStr el.tagName && isVisible el && extractText el != "").all
      (fun el => (pageKnownHeadings doc).contains (extractText el)) = true ∧
    (pageMainContent doc).all
      (fun b => b.type != .heading || !(pageKnownHeadings doc).contains b.text) =
      true := by
  constructor
  · rw [List.all_eq_true]
    intro el hel
    rcases List.mem_filter.mp hel with ⟨hmem, hp⟩
    simp only [Bool.and_eq_true, bne_iff_ne, ne_eq] at hp
    exact heading_text_known doc el hmem hp.1.1 hp.1.2 hp.2
  · rw [List.all_eq_true]
    intro b hb
    exact walkOk_heading_not_known _ b (pageMainContent_inv doc b hb)

/-- Claim C10. -/
theorem claim_C10 :
    (∀ (doc : Doc) (root : Node) (kh : List String) (ctx : SourceCtx)
       (depth : Nat),
      (extractContentBlocks doc root kh ctx depth).all
        (fun b => b.type != .list || b.text == "") = true) ∧
    (∀ blocks : List ContentBlock,
      3 ≤ (blocks.filter fun b => b.type == .list && b.text == "").length →
        "" ∈ buildRepetitionSet (groupContentByHeadings blocks) ∧
        ∀ b : ContentBlock, b.type = .list → b.text = "" →
          blockScoreOf (buildRepetitionSet (groupContentByHeadings blocks)) b =
            -1) := by
  constructor
  · intro doc root kh ctx depth
    rw [List.all_eq_true]
    intro b hb
    exact walkOk_list_empty_text kh b
      (extractContentBlocks_inv doc root kh ctx depth b hb)
  · intro blocks h
    have hmem : "" ∈ buildRepetitionSet (groupContentByHeadings blocks) :=
      (mem_buildRepetitionSet_iff _ "").mpr (count_empty_text blocks h)
    refine ⟨hmem, ?_⟩
    intro b _ hbt
    rw [blockScoreOf, if_pos (by rw [hbt]; exact List.elem_iff.mpr hmem)]

/-- Witness for claim C10. -/
theorem claim_C10_witness :
    (3 ≤ (c10Blocks.filter fun b => b.type == .list && b.text == "").length) ∧
    "" ∈ buildRepetitionSet (groupContentByHeadings c10Blocks) ∧
    blockScoreOf (buildRepetitionSet (groupContentByHeadings c10Blocks))
      { type := .list, text := "", items := some ["one item", "two item"] } =
      -1 :=
  ⟨by decide, (claim_C10.2 c10Blocks (by decide)).1,
   (claim_C10.2 c10Blocks (by decide)).2
     { type := .list, text := "", items := some ["one item", "two item"] }
     rfl rfl⟩

/-- Claim C8. -/
theorem claim_C8 (doc : Doc)
    (h : ∀ f ∈ docDeepQueryAll doc (fun n => n.tagName = "form"),
         isVisible f = true → formResolvedAction doc f ≠ "") :
    (extractForms doc).map (·.action) =
      dedupKeepFirst
        (((docDeepQueryAll doc fun n => n.tagName = "form").filter
            isVisible).map (formResolvedAction doc)) ∧
    ((extractForms doc).map (·.action)).Nodup := by
  have hact := extractFormsGo_actions doc
    (docDeepQueryAll doc fun n => n.tagName = "form") [] [] h
  rw [extractForms]
  constructor
  · rw [hact, dedupKeepFirst]
    simp
  · rw [hact]
    simp only [List.map_nil, List.nil_append]
    exact dedupFirstGo_nodup _ []

/-- Witness for claim C8. -/
theorem claim_C8_witness :
    (∀ f ∈ docDeepQueryAll egDoc (fun n => n.tagName = "form"),
       isVisible f = true → formResolvedAction egDoc f ≠ "") ∧
    ((extractForms egDoc).map (·.action)).Nodup :=
  ⟨by decide, (claim_C8 egDoc (by decide)).2⟩

/-! ### The secondary splitter, corrected -/

/-- Claim C6 (amended). -/
theorem claim_C6 :
    (∀ g : ContentGroup,
       5 * (g.blocks.filter isProductLike).length > 3 * g.blocks.length →
         splitLargeHeadinglessGroup g = [{ g with collapsed := true }]) ∧
    (∀ g : ContentGroup,
       ¬ (5 * (g.blocks.filter isProductLike).length > 3 * g.blocks.length) →
         splitLargeHeadinglessGroup g = splitLoop g.blocks [] 0 []) ∧
    (∀ (blocks : List ContentBlock) (g : ContentGroup),
       partitionLoop blocks ⟨none, [], 0, false⟩ [] = [g] →
       g.heading = none → g.blocks.length > 10 →
         groupContentByHeadings blocks = splitLargeHeadinglessGroup g) ∧
    (∀ bs : List ContentBlock,
       (∀ c ∈ (splitLoop bs [] 0 []).dropLast, c.collapsed = true) ∧
       (∀ c ∈ splitLoop bs [] 0 [], c.collapsed = true →
          endsWithProductRun c.blocks = true) ∧
       (splitLoop bs [] 0 []).flatMap (·.blocks) = bs) ∧
    (∀ blocks : List ContentBlock, ∀ g ∈ groupAndScoreContent blocks,
       g.collapsed =
         decide (g.score < specThreshold (groupAndScoreContent blocks))) := by
  have hzl : ∀ g : ContentGroup,
      (g.blocks.filter isProductLike).length ≤ g.blocks.length :=
    fun g => List.length_filter_le _ _
  refine ⟨?_, ?_, ?_, ?_, ?_⟩
  · intro g hgt
    rw [splitLargeHeadinglessGroup,
      if_pos ((ratio_gt_iff _ _ (hzl g)).mpr hgt)]
  · intro g hle
    rw [splitLargeHeadinglessGroup,
      if_neg (fun hcon => hle ((ratio_gt_iff _ _ (hzl g)).mp hcon))]
  · intro blocks g hp hh hlen
    rw [groupContentByHeadings, hp]
    dsimp only []
    rw [if_pos]
    simp only [Bool.and_eq_true, decide_eq_true_eq]
    exact ⟨by simp [hh], hlen⟩
  · intro bs
    refine ⟨?_, ?_, ?_⟩
    · exact splitLoop_dropLast_collapsed bs [] 0 [] (by simp)
    · exact splitLoop_collapsed_ends_run bs [] 0 [] (by omega) (by simp)
        (by simp) (by simp)
    · have := splitLoop_flat bs [] 0 []
      simpa using this
  · exact fun blocks => final_collapsed_iff blocks

unseal Rat.add Rat.mul Rat.sub Rat.inv Rat.ofScientific in
/-- Counterexample to the frozen reading of claim C6. -/
theorem claim_C6_counterexample :
    groupContentByHeadings c6Blocks = [⟨none, c6Blocks, 0, true⟩] ∧
    (groupAndScoreContent c6Blocks).map (fun g => (g.blocks.length, g.collapsed)) =
      [(11, false)] := by
  constructor
  · decide
  · decide

unseal Rat.add Rat.mul Rat.sub Rat.inv Rat.ofScientific in
/-- Witness for claim C6 (amended). -/
theorem claim_C6_witness :
    (5 * ((c6Blocks.filter isProductLike).length) > 3 * c6Blocks.length ∧
     splitLargeHeadinglessGroup ⟨none, c6Blocks, 0, false⟩ =
       [⟨none, c6Blocks, 0, true⟩]) ∧
    (¬ (5 * ((c10Blocks.filter isProductLike).length) > 3 * c10Blocks.length) ∧
     splitLargeHeadinglessGroup ⟨none, c10Blocks, 0, false⟩ =
       splitLoop c10Blocks [] 0 []) ∧
    (partitionLoop c6Blocks ⟨none, [], 0, false⟩ [] =
       [⟨none, c6Blocks, 0, false⟩] ∧
     groupContentByHeadings c6Blocks =
       splitLargeHeadinglessGroup ⟨none, c6Blocks, 0, false⟩) :=
  ⟨⟨by decide, claim_C6.1 ⟨none, c6Blocks, 0, false⟩ (by decide)⟩,
   ⟨by decide, claim_C6.2.1 ⟨none, c10Blocks, 0, false⟩ (by decide)⟩,
   ⟨by decide,
    claim_C6.2.2.1 c6Blocks ⟨none, c6Blocks, 0, false⟩ (by decide) rfl
      (by decide)⟩⟩

end ASnap
